import Mathlib

/-
  Verification of the three-body-problem simulator (src/main.rs).

  The floating-point (`f32`) arithmetic of the program is modelled over the
  real numbers `ℝ` (exact arithmetic, no rounding).  Where a claim is
  specifically about IEEE special values (division by zero producing
  NaN/infinity) a separate exact model `FVal` with `nan`/`inf` constructors
  is used; that model tracks special values exactly and ignores rounding,
  which is faithful on the traces considered because every intermediate
  value there is exactly representable.

  Definitions are translated from src/main.rs; the Rust names are kept.
-/

noncomputable section

/- Constants from src/main.rs (lines 8-10). -/
def MOVE_SPEED : ℝ := 0.01
def LOOK_SPEED : ℝ := 0.1
def POSITION_SCALE : ℝ := 0.001

/- 3-component vector over the reals, modelling `macroquad::prelude::Vec3`. -/
@[ext]
structure Vec3 where
  x : ℝ
  y : ℝ
  z : ℝ

namespace Vec3

instance : Zero Vec3 := ⟨⟨0, 0, 0⟩⟩
instance : Add Vec3 := ⟨fun a b => ⟨a.x + b.x, a.y + b.y, a.z + b.z⟩⟩
instance : Neg Vec3 := ⟨fun a => ⟨-a.x, -a.y, -a.z⟩⟩
instance : Sub Vec3 := ⟨fun a b => ⟨a.x - b.x, a.y - b.y, a.z - b.z⟩⟩

@[simp] theorem zero_x : (0 : Vec3).x = 0 := rfl
@[simp] theorem zero_y : (0 : Vec3).y = 0 := rfl
@[simp] theorem zero_z : (0 : Vec3).z = 0 := rfl
@[simp] theorem add_x (a b : Vec3) : (a + b).x = a.x + b.x := rfl
@[simp] theorem add_y (a b : Vec3) : (a + b).y = a.y + b.y := rfl
@[simp] theorem add_z (a b : Vec3) : (a + b).z = a.z + b.z := rfl
@[simp] theorem neg_x (a : Vec3) : (-a).x = -a.x := rfl
@[simp] theorem neg_y (a : Vec3) : (-a).y = -a.y := rfl
@[simp] theorem neg_z (a : Vec3) : (-a).z = -a.z := rfl
@[simp] theorem sub_x (a b : Vec3) : (a - b).x = a.x - b.x := rfl
@[simp] theorem sub_y (a b : Vec3) : (a - b).y = a.y - b.y := rfl
@[simp] theorem sub_z (a b : Vec3) : (a - b).z = a.z - b.z := rfl

instance : AddCommMonoid Vec3 where
  add := (· + ·)
  zero := 0
  add_assoc a b c := by ext <;> simp [add_assoc]
  zero_add a := by ext <;> simp
  add_zero a := by ext <;> simp
  add_comm a b := by ext <;> simp [add_comm]
  nsmul := nsmulRec

/-- Vector times scalar, modelling glam's `Vec3 * f32`. -/
def smul (v : Vec3) (c : ℝ) : Vec3 := ⟨v.x * c, v.y * c, v.z * c⟩

/-- Vector divided by scalar, modelling glam's `Vec3 / f32`. -/
def divScalar (v : Vec3) (c : ℝ) : Vec3 := ⟨v.x / c, v.y / c, v.z / c⟩

/-- Dot product, as in glam. -/
def dot (v w : Vec3) : ℝ := v.x * w.x + v.y * w.y + v.z * w.z

/-- Cross product, as in glam. -/
def cross (u v : Vec3) : Vec3 :=
  ⟨u.y * v.z - u.z * v.y, u.z * v.x - u.x * v.z, u.x * v.y - u.y * v.x⟩

/-- Length, modelling glam's `Vec3::length` (`sqrt(dot(self, self))`). -/
noncomputable def length (v : Vec3) : ℝ := Real.sqrt (v.dot v)

/-- Normalisation, modelling glam's `Vec3::normalize`
(`self * self.length().recip()`).  Over `ℝ`, `0⁻¹ = 0`, so normalising the
zero vector yields the zero vector in this model (the `f32` code yields NaN
there; the `FVal` model below captures that case exactly). -/
noncomputable def normalize (v : Vec3) : Vec3 := v.smul (v.length)⁻¹

@[simp] theorem smul_x (v : Vec3) (c : ℝ) : (v.smul c).x = v.x * c := rfl
@[simp] theorem smul_y (v : Vec3) (c : ℝ) : (v.smul c).y = v.y * c := rfl
@[simp] theorem smul_z (v : Vec3) (c : ℝ) : (v.smul c).z = v.z * c := rfl
@[simp] theorem divScalar_x (v : Vec3) (c : ℝ) : (v.divScalar c).x = v.x / c := rfl
@[simp] theorem divScalar_y (v : Vec3) (c : ℝ) : (v.divScalar c).y = v.y / c := rfl
@[simp] theorem divScalar_z (v : Vec3) (c : ℝ) : (v.divScalar c).z = v.z / c := rfl

@[simp] theorem smul_zero_left (c : ℝ) : (0 : Vec3).smul c = 0 := by
  ext <;> simp [smul]

@[simp] theorem smul_zero_right (v : Vec3) : v.smul 0 = 0 := by
  ext <;> simp [smul]

@[simp] theorem smul_one (v : Vec3) : v.smul 1 = v := by
  ext <;> simp [smul]

theorem add_smul_dist (a b : Vec3) (c : ℝ) :
    (a + b).smul c = a.smul c + b.smul c := by
  ext <;> simp [smul] <;> ring

theorem smul_smul (v : Vec3) (a b : ℝ) : (v.smul a).smul b = v.smul (a * b) := by
  ext <;> simp [smul] <;> ring

theorem smul_div (v : Vec3) (a b : ℝ) : (v.smul a).divScalar b = v.smul (a / b) := by
  ext <;> simp [smul, divScalar] <;> ring

theorem divScalar_add (a b : Vec3) (c : ℝ) :
    (a + b).divScalar c = a.divScalar c + b.divScalar c := by
  ext <;> simp [divScalar] <;> ring

@[simp] theorem zero_divScalar (c : ℝ) : (0 : Vec3).divScalar c = 0 := by
  ext <;> simp [divScalar]

theorem sub_add_cancel_left (p v : Vec3) : p - (p + v) = -v := by
  ext <;> simp

theorem neg_eq_smul_neg_one (v : Vec3) (c : ℝ) : -(v.smul c) = v.smul (-c) := by
  ext <;> simp [smul]

@[simp] theorem length_zero : (0 : Vec3).length = 0 := by
  simp [length, dot]

@[simp] theorem normalize_zero : (0 : Vec3).normalize = 0 := by
  simp [normalize]

end Vec3

/- 2-component vector over the reals, modelling `macroquad::prelude::Vec2`. -/
@[ext]
structure Vec2 where
  x : ℝ
  y : ℝ

instance : Sub Vec2 := ⟨fun a b => ⟨a.x - b.x, a.y - b.y⟩⟩

@[simp] theorem vec2_sub_x (a b : Vec2) : (a - b).x = a.x - b.x := rfl
@[simp] theorem vec2_sub_y (a b : Vec2) : (a - b).y = a.y - b.y := rfl

/- `Body` (src/main.rs lines 22-29). -/
@[ext]
structure Body where
  mass : ℝ
  radius : ℝ
  position : Vec3
  velocity : Vec3
  color : ℝ × ℝ × ℝ

namespace Body

/-- `Body::new` (src/main.rs lines 32-40). -/
def new : Body :=
  { mass := 1000000000
    radius := 5
    position := ⟨0, 0, 0⟩
    velocity := ⟨0, 0, 0⟩
    color := (1, 1, 1) }

/-- Gravitational constant `G` (src/main.rs line 47). -/
def G : ℝ := 6.67430e-8

/-- Minimum-distance guard `EPS` (src/main.rs line 48). -/
def EPS : ℝ := 1e-9

/-- `Body::accelerate` (src/main.rs lines 42-44): `velocity += a * dt`. -/
def accelerate (b : Body) (a : Vec3) (dt : ℝ) : Body :=
  { b with velocity := b.velocity + a.smul dt }

/-- `Body::find_acceleration` (src/main.rs lines 46-59). -/
noncomputable def find_acceleration (self other : Body) : Vec3 :=
  let vector := other.position - self.position
  let r := vector.length
  let normalized := vector.normalize
  let acceleration : ℝ := if r < EPS then 0 else G * other.mass / (r * r)
  normalized.smul acceleration

/-- `Body::accelerate_by_body` (src/main.rs lines 61-63). -/
noncomputable def accelerate_by_body (self other : Body) (dt : ℝ) : Body :=
  self.accelerate (self.find_acceleration other) dt

/-- `Body::move_sphere` (src/main.rs lines 65-67): `position += velocity * dt`. -/
def move_sphere (b : Body) (dt : ℝ) : Body :=
  { b with position := b.position + b.velocity.smul dt }

theorem find_acceleration_congr {b b' o o' : Body}
    (hp : b.position = b'.position) (hop : o.position = o'.position)
    (hom : o.mass = o'.mass) :
    b.find_acceleration o = b'.find_acceleration o' := by
  simp [find_acceleration, hp, hop, hom]

@[simp] theorem accelerate_mass (b : Body) (a : Vec3) (dt : ℝ) :
    (b.accelerate a dt).mass = b.mass := rfl
@[simp] theorem accelerate_radius (b : Body) (a : Vec3) (dt : ℝ) :
    (b.accelerate a dt).radius = b.radius := rfl
@[simp] theorem accelerate_position (b : Body) (a : Vec3) (dt : ℝ) :
    (b.accelerate a dt).position = b.position := rfl
@[simp] theorem accelerate_color (b : Body) (a : Vec3) (dt : ℝ) :
    (b.accelerate a dt).color = b.color := rfl
@[simp] theorem accelerate_velocity (b : Body) (a : Vec3) (dt : ℝ) :
    (b.accelerate a dt).velocity = b.velocity + a.smul dt := rfl

end Body

/- `System` (src/main.rs lines 70-72). -/
@[ext]
structure System where
  bodies : List Body

namespace System

/-- Net acceleration on body `i` computed from the body list `bs`:
the sum over `j ≠ i` of `find_acceleration` of body `i` by body `j`.
This is the specification-level quantity the `accelerate` loop realises. -/
noncomputable def netAccel (bs : List Body) (i : ℕ) : Vec3 :=
  ((List.range bs.length).map
    (fun j => if i ≠ j then (bs.getD i Body.new).find_acceleration (bs.getD j Body.new)
              else 0)).sum

/-- Inner loop of `System::accelerate` (src/main.rs lines 77-82): starting
from `current = bodies[i]`, fold `accelerate_by_body` over all `j ≠ i`. -/
noncomputable def innerPass (bs : List Body) (dt : ℝ) (i : ℕ) : Body :=
  (List.range bs.length).foldl
    (fun cur j => if i ≠ j then cur.accelerate_by_body (bs.getD j Body.new) dt else cur)
    (bs.getD i Body.new)

/-- Outer loop of `System::accelerate` as a fold over a processing order. -/
noncomputable def accelFold (dt : ℝ) (bs : List Body) (order : List ℕ) : List Body :=
  order.foldl (fun l i => l.set i (innerPass l dt i)) bs

/-- `System::accelerate` generalised to an arbitrary processing order of the
outer loop: for each index `i` of `order` in turn, replace `bodies[i]` by the
result of the inner pass (src/main.rs lines 75-85 process
`order = 0, 1, ..., len-1`). -/
noncomputable def accelerateOrder (s : System) (dt : ℝ) (order : List ℕ) : System :=
  ⟨accelFold dt s.bodies order⟩

/-- `System::accelerate` (src/main.rs lines 75-85): outer loop over
`i in 0..len`. -/
noncomputable def accelerate (s : System) (dt : ℝ) : System :=
  s.accelerateOrder dt (List.range s.bodies.length)

/-- `System::move_bodies` (src/main.rs lines 87-91). -/
def move_bodies (s : System) (dt : ℝ) : System :=
  ⟨s.bodies.map (fun b => b.move_sphere dt)⟩

/-- `System::mass_center` (src/main.rs lines 93-103). -/
noncomputable def mass_center (s : System) : Vec3 :=
  if s.bodies.isEmpty then ⟨0, 0, 0⟩
  else
    ((s.bodies.foldl (fun acc body => acc + body.position.smul body.mass) (0 : Vec3)).divScalar
      (s.bodies.foldl (fun acc body => acc + body.mass) (0 : ℝ))).smul POSITION_SCALE

/-- Denominator of the `mass_center` division: the folded total mass. -/
def massDenominator (s : System) : ℝ :=
  s.bodies.foldl (fun acc body => acc + body.mass) (0 : ℝ)

end System

/- List helper lemmas (getD after set). -/

theorem getD_set_eq {α : Type _} (l : List α) {i : ℕ} (h : i < l.length) (a d : α) :
    (l.set i a).getD i d = a := by
  rw [List.getD_eq_getElem?_getD, List.getElem?_set_self h]
  rfl

theorem getD_set_ne {α : Type _} (l : List α) {i j : ℕ} (h : i ≠ j) (a d : α) :
    (l.set i a).getD j d = l.getD j d := by
  rw [List.getD_eq_getElem?_getD, List.getD_eq_getElem?_getD, List.getElem?_set_ne h]

namespace System

/-- The inner fold of `accelerate` only accumulates velocity: starting from
any body `c`, folding `accelerate_by_body` over a list of indices adds
`dt` times the sum of the corresponding pairwise accelerations (computed
from `c`'s position, which the fold never changes). -/
theorem accel_inner_fold (bs : List Body) (dt : ℝ) (i : ℕ) :
    ∀ (L : List ℕ) (c : Body),
      L.foldl (fun cur j => if i ≠ j then cur.accelerate_by_body (bs.getD j Body.new) dt else cur) c
      = { c with velocity := c.velocity +
            ((L.map (fun j => if i ≠ j then c.find_acceleration (bs.getD j Body.new) else 0)).sum).smul dt } := by
  intro L
  induction L with
  | nil =>
    intro c
    simp
  | cons j L ih =>
    intro c
    by_cases hij : i ≠ j
    · have hstep : (if i ≠ j then c.accelerate_by_body (bs.getD j Body.new) dt else c)
          = c.accelerate (c.find_acceleration (bs.getD j Body.new)) dt := by
        rw [if_pos hij]; rfl
      have hpos : (c.accelerate (c.find_acceleration (bs.getD j Body.new)) dt).position
          = c.position := rfl
      have hmap : (L.map (fun k =>
            if i ≠ k then (c.accelerate (c.find_acceleration (bs.getD j Body.new)) dt).find_acceleration
              (bs.getD k Body.new) else 0))
          = L.map (fun k => if i ≠ k then c.find_acceleration (bs.getD k Body.new) else 0) :=
        List.map_congr_left (fun a _ => by
          by_cases h : i ≠ a
          · rw [if_pos h, if_pos h, Body.find_acceleration_congr hpos rfl rfl]
          · rw [if_neg h, if_neg h])
      rw [List.foldl_cons, hstep, ih, hmap]
      ext <;> simp [hij]
      all_goals ring
    · have hj : i = j := not_not.mp hij
      subst hj
      rw [List.foldl_cons, if_neg hij, ih]
      simp

/-- The inner pass equals the snapshot formula: body `i` with its velocity
advanced by `dt` times the net acceleration computed from the list `bs`. -/
theorem innerPass_eq (bs : List Body) (dt : ℝ) (i : ℕ) :
    innerPass bs dt i = { bs.getD i Body.new with velocity :=
      (bs.getD i Body.new).velocity + (netAccel bs i).smul dt } := by
  unfold innerPass netAccel
  exact accel_inner_fold bs dt i (List.range bs.length) (bs.getD i Body.new)

/-- `netAccel` depends only on the length and on the positions and masses of
the entries of the list. -/
theorem netAccel_congr {bs bs' : List Body} (hlen : bs.length = bs'.length)
    (hpos : ∀ j, (bs.getD j Body.new).position = (bs'.getD j Body.new).position)
    (hmass : ∀ j, (bs.getD j Body.new).mass = (bs'.getD j Body.new).mass) (i : ℕ) :
    netAccel bs i = netAccel bs' i := by
  unfold netAccel
  rw [hlen]
  refine congrArg List.sum (List.map_congr_left fun j _ => ?_)
  by_cases h : i ≠ j
  · rw [if_pos h, if_pos h]
    exact Body.find_acceleration_congr (hpos i) (hpos j) (hmass j)
  · rw [if_neg h, if_neg h]

/-- Invariant of the outer loop of `accelerate`: folding the per-body pass
over any duplicate-free list of in-range indices whose bodies still carry
their original velocities sets exactly those bodies' velocities to the
snapshot formula (net acceleration from the ORIGINAL list `orig`) and leaves
every other field and every other body unchanged. -/
theorem accel_outer_fold (orig : List Body) (dt : ℝ) :
    ∀ (order : List ℕ) (bs : List Body),
      bs.length = orig.length →
      (∀ j, (bs.getD j Body.new).mass = (orig.getD j Body.new).mass) →
      (∀ j, (bs.getD j Body.new).radius = (orig.getD j Body.new).radius) →
      (∀ j, (bs.getD j Body.new).position = (orig.getD j Body.new).position) →
      (∀ j, (bs.getD j Body.new).color = (orig.getD j Body.new).color) →
      order.Nodup →
      (∀ j ∈ order, j < orig.length) →
      (∀ j ∈ order, (bs.getD j Body.new).velocity = (orig.getD j Body.new).velocity) →
      (accelFold dt bs order).length = orig.length ∧
      (∀ j, ((accelFold dt bs order).getD j Body.new).mass = (orig.getD j Body.new).mass) ∧
      (∀ j, ((accelFold dt bs order).getD j Body.new).radius = (orig.getD j Body.new).radius) ∧
      (∀ j, ((accelFold dt bs order).getD j Body.new).position = (orig.getD j Body.new).position) ∧
      (∀ j, ((accelFold dt bs order).getD j Body.new).color = (orig.getD j Body.new).color) ∧
      (∀ j, ((accelFold dt bs order).getD j Body.new).velocity =
        if j ∈ order then (orig.getD j Body.new).velocity + (netAccel orig j).smul dt
        else (bs.getD j Body.new).velocity) := by
  intro order
  induction order with
  | nil =>
    intro bs hlen hm hr hp hc _ _ _
    refine ⟨hlen, hm, hr, hp, hc, fun j => ?_⟩
    simp [accelFold]
  | cons i rest ih =>
    intro bs hlen hm hr hp hc hnd hbound hvel
    have hi : i < orig.length := hbound i (List.mem_cons_self i rest)
    have hilen : i < bs.length := by rw [hlen]; exact hi
    have hinner := innerPass_eq bs dt i
    have hna : netAccel bs i = netAccel orig i :=
      netAccel_congr hlen hp hm i
    have hfold : accelFold dt bs (i :: rest)
        = accelFold dt (bs.set i (innerPass bs dt i)) rest := rfl
    have hlen' : (bs.set i (innerPass bs dt i)).length = orig.length := by
      rw [List.length_set]; exact hlen
    have hgetset : ∀ j, ((bs.set i (innerPass bs dt i)).getD j Body.new)
        = if i = j then innerPass bs dt i else bs.getD j Body.new := by
      intro j
      by_cases h : i = j
      · subst h; rw [if_pos rfl, getD_set_eq bs hilen]
      · rw [if_neg h, getD_set_ne bs h]
    have hm' : ∀ j, ((bs.set i (innerPass bs dt i)).getD j Body.new).mass
        = (orig.getD j Body.new).mass := by
      intro j; rw [hgetset j]
      by_cases h : i = j
      · subst h; rw [if_pos rfl, hinner]; exact hm i
      · rw [if_neg h]; exact hm j
    have hr' : ∀ j, ((bs.set i (innerPass bs dt i)).getD j Body.new).radius
        = (orig.getD j Body.new).radius := by
      intro j; rw [hgetset j]
      by_cases h : i = j
      · subst h; rw [if_pos rfl, hinner]; exact hr i
      · rw [if_neg h]; exact hr j
    have hp' : ∀ j, ((bs.set i (innerPass bs dt i)).getD j Body.new).position
        = (orig.getD j Body.new).position := by
      intro j; rw [hgetset j]
      by_cases h : i = j
      · subst h; rw [if_pos rfl, hinner]; exact hp i
      · rw [if_neg h]; exact hp j
    have hc' : ∀ j, ((bs.set i (innerPass bs dt i)).getD j Body.new).color
        = (orig.getD j Body.new).color := by
      intro j; rw [hgetset j]
      by_cases h : i = j
      · subst h; rw [if_pos rfl, hinner]; exact hc i
      · rw [if_neg h]; exact hc j
    have hnd' : rest.Nodup := (List.nodup_cons.mp hnd).2
    have hnoti : i ∉ rest := (List.nodup_cons.mp hnd).1
    have hbound' : ∀ j ∈ rest, j < orig.length :=
      fun j hj => hbound j (List.mem_cons_of_mem i hj)
    have hvel' : ∀ j ∈ rest, ((bs.set i (innerPass bs dt i)).getD j Body.new).velocity
        = (orig.getD j Body.new).velocity := by
      intro j hj
      have hij : i ≠ j := fun h => hnoti (h ▸ hj)
      rw [hgetset j, if_neg hij]
      exact hvel j (List.mem_cons_of_mem i hj)
    obtain ⟨rl, rm, rr, rp, rc, rv⟩ :=
      ih (bs.set i (innerPass bs dt i)) hlen' hm' hr' hp' hc' hnd' hbound' hvel'
    rw [hfold]
    refine ⟨rl, rm, rr, rp, rc, fun j => ?_⟩
    rw [rv j]
    by_cases hjr : j ∈ rest
    · rw [if_pos hjr, if_pos (List.mem_cons_of_mem i hjr)]
    · rw [if_neg hjr, hgetset j]
      by_cases h : i = j
      · subst h
        rw [if_pos rfl, if_pos (List.mem_cons_self i rest), hinner, hna]
        show (bs.getD i Body.new).velocity + (netAccel orig i).smul dt
            = (orig.getD i Body.new).velocity + (netAccel orig i).smul dt
        rw [hvel i (List.mem_cons_self i rest)]
      · have hjmem : j ∉ i :: rest := by
          intro hmem
          rcases List.mem_cons.mp hmem with h1 | h2
          · exact h h1.symm
          · exact hjr h2
        rw [if_neg h, if_neg hjmem]

end System

namespace System

/-- Characterisation of `accelerateOrder` for any processing order that is a
permutation of `0..len`: every non-velocity field is unchanged and body `j`'s
velocity is advanced by `dt` times the net acceleration computed from the
original (pre-call) body list. -/
theorem accelerateOrder_spec (s : System) (dt : ℝ) (order : List ℕ)
    (hperm : order.Perm (List.range s.bodies.length)) :
    (s.accelerateOrder dt order).bodies.length = s.bodies.length ∧
    (∀ j, ((s.accelerateOrder dt order).bodies.getD j Body.new).mass
        = (s.bodies.getD j Body.new).mass) ∧
    (∀ j, ((s.accelerateOrder dt order).bodies.getD j Body.new).radius
        = (s.bodies.getD j Body.new).radius) ∧
    (∀ j, ((s.accelerateOrder dt order).bodies.getD j Body.new).position
        = (s.bodies.getD j Body.new).position) ∧
    (∀ j, ((s.accelerateOrder dt order).bodies.getD j Body.new).color
        = (s.bodies.getD j Body.new).color) ∧
    (∀ j, ((s.accelerateOrder dt order).bodies.getD j Body.new).velocity
        = if j < s.bodies.length
          then (s.bodies.getD j Body.new).velocity + (netAccel s.bodies j).smul dt
          else (s.bodies.getD j Body.new).velocity) := by
  have hnd : order.Nodup := hperm.symm.nodup (List.nodup_range _)
  have hmem : ∀ j, j ∈ order ↔ j < s.bodies.length := fun j => by
    rw [hperm.mem_iff, List.mem_range]
  obtain ⟨rl, rm, rr, rp, rc, rv⟩ :=
    accel_outer_fold s.bodies dt order s.bodies rfl (fun _ => rfl) (fun _ => rfl)
      (fun _ => rfl) (fun _ => rfl) hnd (fun j hj => (hmem j).mp hj) (fun _ _ => rfl)
  refine ⟨rl, rm, rr, rp, rc, fun j => ?_⟩
  have hvj := rv j
  rw [if_congr (hmem j) rfl rfl] at hvj
  exact hvj

/-- Processing order does not matter: `accelerateOrder` with any permutation
of `0..len` coincides with `accelerate` (which processes `0,1,...,len-1`). -/
theorem accelerateOrder_eq_accelerate (s : System) (dt : ℝ) (order : List ℕ)
    (hperm : order.Perm (List.range s.bodies.length)) :
    s.accelerateOrder dt order = s.accelerate dt := by
  obtain ⟨l1, m1, r1, p1, c1, v1⟩ := accelerateOrder_spec s dt order hperm
  obtain ⟨l2, m2, r2, p2, c2, v2⟩ :=
    accelerateOrder_spec s dt (List.range s.bodies.length) (List.Perm.refl _)
  show s.accelerateOrder dt order = s.accelerateOrder dt (List.range s.bodies.length)
  ext1
  apply List.ext_get (by rw [l1]; exact l2.symm)
  intro n h1 h2
  have hgd1 : (s.accelerateOrder dt order).bodies.get ⟨n, h1⟩
      = (s.accelerateOrder dt order).bodies.getD n Body.new := by
    rw [List.getD_eq_getElem _ _ h1]
    rfl
  have hgd2 : (s.accelerateOrder dt (List.range s.bodies.length)).bodies.get ⟨n, h2⟩
      = (s.accelerateOrder dt (List.range s.bodies.length)).bodies.getD n Body.new := by
    rw [List.getD_eq_getElem _ _ h2]
    rfl
  rw [hgd1, hgd2]
  apply Body.ext
  · rw [m1 n, m2 n]
  · rw [r1 n, r2 n]
  · rw [p1 n, p2 n]
  · rw [v1 n, v2 n]
  · rw [c1 n, c2 n]

/-- `move_sphere` with `dt = 0` is the identity. -/
theorem move_sphere_zero (b : Body) : b.move_sphere 0 = b := by
  ext <;> simp [Body.move_sphere]

/-- `move_bodies(0)` changes nothing. -/
theorem move_bodies_zero (s : System) : s.move_bodies 0 = s := by
  ext1
  show s.bodies.map (fun b => b.move_sphere 0) = s.bodies
  rw [List.map_congr_left (fun b _ => move_sphere_zero b)]
  simp

/-- `accelerate(0)` changes nothing. -/
theorem accelerate_zero (s : System) : s.accelerate 0 = s := by
  obtain ⟨l2, m2, r2, p2, c2, v2⟩ :=
    accelerateOrder_spec s 0 (List.range s.bodies.length) (List.Perm.refl _)
  show s.accelerateOrder 0 (List.range s.bodies.length) = s
  ext1
  apply List.ext_get l2
  intro n h1 h2
  have hgd1 : (s.accelerateOrder 0 (List.range s.bodies.length)).bodies.get ⟨n, h1⟩
      = (s.accelerateOrder 0 (List.range s.bodies.length)).bodies.getD n Body.new := by
    rw [List.getD_eq_getElem _ _ h1]
    rfl
  have hgd2 : s.bodies.get ⟨n, h2⟩ = s.bodies.getD n Body.new := by
    rw [List.getD_eq_getElem _ _ h2]
    rfl
  rw [hgd1, hgd2]
  have hv : ((s.accelerateOrder 0 (List.range s.bodies.length)).bodies.getD n Body.new).velocity
      = (s.bodies.getD n Body.new).velocity := by
    rw [v2 n]
    by_cases h : n < s.bodies.length
    · rw [if_pos h]
      simp
    · rw [if_neg h]
  apply Body.ext
  · rw [m2 n]
  · rw [r2 n]
  · rw [p2 n]
  · rw [hv]
  · rw [c2 n]

end System

/- Helper lemmas relating the folds in `mass_center` to list sums. -/

theorem foldl_add_map_sum {α M : Type _} [AddCommMonoid M] (f : α → M) :
    ∀ (l : List α) (z : M), l.foldl (fun acc b => acc + f b) z = z + (l.map f).sum := by
  intro l
  induction l with
  | nil => intro z; simp
  | cons a l ih => intro z; simp [ih, add_assoc]

theorem sum_map_div {α : Type _} (l : List α) (f : α → ℝ) (c : ℝ) :
    (l.map (fun a => f a / c)).sum = (l.map f).sum / c := by
  induction l with
  | nil => simp
  | cons a l ih => simp [ih, add_div]

theorem sum_map_smul_div {α : Type _} (l : List α) (g : α → Vec3) (f : α → ℝ) (c : ℝ) :
    (l.map (fun a => (g a).smul (f a / c))).sum
      = ((l.map (fun a => (g a).smul (f a))).sum).divScalar c := by
  induction l with
  | nil => simp
  | cons a l ih => simp [ih, Vec3.divScalar_add, Vec3.smul_div]

/- Per-frame input signals consumed by the camera: boolean down-state of the
six movement keys, the mouse position, and `get_frame_time()`. -/
structure FrameInput where
  w : Bool
  s : Bool
  a : Bool
  d : Bool
  q : Bool
  e : Bool
  mousePos : Vec2
  frameTime : ℝ

/- `Camera` (src/main.rs lines 113-129). -/
structure Camera where
  x : ℝ
  switch : Bool
  bounds : ℝ
  world_up : Vec3
  yaw : ℝ
  pitch : ℝ
  radius : ℝ
  front : Vec3
  right : Vec3
  up : Vec3
  position : Vec3
  last_mouse_position : Vec2
  grabbed : Bool

/-- The spherical direction vector
`vec3(yaw.cos() * pitch.cos(), pitch.sin(), yaw.sin() * pitch.cos())`
appearing in `Camera::new`, `update_free` and `update_with_point`. -/
def dirVec (yaw pitch : ℝ) : Vec3 :=
  ⟨Real.cos yaw * Real.cos pitch, Real.sin pitch, Real.sin yaw * Real.cos pitch⟩

namespace Camera

/-- `Camera::new` (src/main.rs lines 132-171); the initial mouse position is
a parameter (the code samples `mouse_position()`). -/
def new (m : Vec2) : Camera :=
  let yaw : ℝ := 1.18
  let pitch : ℝ := 0
  let world_up : Vec3 := ⟨0, 1, 0⟩
  let front := (dirVec yaw pitch).normalize
  let right := (front.cross world_up).normalize
  let up := (right.cross front).normalize
  { x := 0
    switch := false
    bounds := 8
    world_up := world_up
    yaw := yaw
    pitch := pitch
    radius := 5
    front := front
    right := right
    up := up
    position := ⟨0, 0, 0⟩
    last_mouse_position := m
    grabbed := true }

/-- Position after the six key-driven translations of `update_free`
(src/main.rs lines 174-192), applied in program order. -/
def freePosition (c : Camera) (inp : FrameInput) : Vec3 :=
  c.position
    + (if inp.w then c.front.smul MOVE_SPEED else 0)
    - (if inp.s then c.front.smul MOVE_SPEED else 0)
    - (if inp.a then c.right.smul MOVE_SPEED else 0)
    + (if inp.d then c.right.smul MOVE_SPEED else 0)
    + (if inp.q then c.up.smul MOVE_SPEED else 0)
    - (if inp.e then c.up.smul MOVE_SPEED else 0)

/-- Yaw after the mouse-look update of the grabbed branch of `update_free`
(src/main.rs line 201). -/
def freeYaw (c : Camera) (inp : FrameInput) : ℝ :=
  c.yaw + (inp.mousePos - c.last_mouse_position).x * inp.frameTime * LOOK_SPEED

/-- Pitch after the mouse-look update and the clamp of the grabbed branch of
`update_free` (src/main.rs lines 202-204).  Rust's `clamp(-1.5, 1.5)` is
written as `max (-1.5) (min _ 1.5)`. -/
def freePitch (c : Camera) (inp : FrameInput) : ℝ :=
  max (-1.5) (min (c.pitch + (inp.mousePos - c.last_mouse_position).y * inp.frameTime
    * (-LOOK_SPEED)) 1.5)

/-- `Camera::update_free` (src/main.rs lines 173-221). -/
def update_free (c : Camera) (inp : FrameInput) : Camera :=
  let pos' := c.freePosition inp
  if c.grabbed then
    let yaw' := c.freeYaw inp
    let pitch' := c.freePitch inp
    let front' := (dirVec yaw' pitch').normalize
    let right' := (front'.cross c.world_up).normalize
    let up' := (right'.cross front').normalize
    let x' := c.x + (if c.switch then (0.04 : ℝ) else -0.04)
    let switch' := if x' ≥ c.bounds ∨ x' ≤ -c.bounds then !c.switch else c.switch
    { c with
      position := pos'
      last_mouse_position := inp.mousePos
      yaw := yaw'
      pitch := pitch'
      front := front'
      right := right'
      up := up'
      x := x'
      switch := switch' }
  else
    { c with position := pos', last_mouse_position := inp.mousePos }

/-- Yaw after the A/D adjustments of `update_with_point`
(src/main.rs lines 225-230). -/
def orbitYaw (c : Camera) (inp : FrameInput) : ℝ :=
  c.yaw - (if inp.a then LOOK_SPEED * inp.frameTime else 0)
    + (if inp.d then LOOK_SPEED * inp.frameTime else 0)

/-- Pitch after the Q/E adjustments of `update_with_point`
(src/main.rs lines 231-236); note there is no clamp in orbit mode. -/
def orbitPitch (c : Camera) (inp : FrameInput) : ℝ :=
  c.pitch + (if inp.q then LOOK_SPEED * inp.frameTime else 0)
    - (if inp.e then LOOK_SPEED * inp.frameTime else 0)

/-- Radius after the W/S zoom adjustments of `update_with_point`
(src/main.rs lines 239-244); note there is no positivity clamp. -/
def orbitRadius (c : Camera) (inp : FrameInput) : ℝ :=
  c.radius - (if inp.w then MOVE_SPEED * 2 else 0)
    + (if inp.s then MOVE_SPEED * 2 else 0)

/-- `Camera::update_with_point` (src/main.rs lines 223-254). -/
def update_with_point (c : Camera) (inp : FrameInput) (focus_point : Vec3) : Camera :=
  let yaw' := c.orbitYaw inp
  let pitch' := c.orbitPitch inp
  let radius' := c.orbitRadius inp
  let pos' := focus_point + (dirVec yaw' pitch').smul radius'
  let front' := (focus_point - pos').normalize
  let right' := (front'.cross c.world_up).normalize
  let up' := (right'.cross front').normalize
  { c with
    yaw := yaw'
    pitch := pitch'
    radius := radius'
    position := pos'
    front := front'
    right := right'
    up := up' }

end Camera

/-- The camera-basis invariant stated by the specification: `front`, `right`
and `up` are unit vectors, pairwise orthogonal, and form a right-handed
frame in the view-matrix convention used by `draw_camera_gizmo`
(`Mat3::from_cols(right, up, -front)` is a rotation): `right × up = -front`. -/
def OrthonormalFrame (c : Camera) : Prop :=
  c.front.length = 1 ∧ c.right.length = 1 ∧ c.up.length = 1 ∧
  c.front.dot c.right = 0 ∧ c.front.dot c.up = 0 ∧ c.right.dot c.up = 0 ∧
  c.right.cross c.up = -c.front

namespace Vec3

theorem dot_smul_smul (v w : Vec3) (t u : ℝ) :
    (v.smul t).dot (w.smul u) = v.dot w * (t * u) := by
  simp [dot, smul]
  ring

theorem dot_smul_left (v w : Vec3) (t : ℝ) : (v.smul t).dot w = v.dot w * t := by
  simp [dot, smul]
  ring

theorem dot_smul_right (v w : Vec3) (t : ℝ) : v.dot (w.smul t) = v.dot w * t := by
  simp [dot, smul]
  ring

theorem cross_smul_left (v w : Vec3) (t : ℝ) : (v.smul t).cross w = (v.cross w).smul t := by
  ext <;> simp [cross, smul] <;> ring

theorem cross_smul_smul (v w : Vec3) (t u : ℝ) :
    (v.smul t).cross (w.smul u) = (v.cross w).smul (t * u) := by
  ext <;> simp [cross, smul] <;> ring

theorem length_eq_one_of_dot {v : Vec3} (h : v.dot v = 1) : v.length = 1 := by
  rw [length, h, Real.sqrt_one]

theorem normalize_of_dot_one {v : Vec3} (h : v.dot v = 1) : v.normalize = v := by
  rw [normalize, length, h, Real.sqrt_one, inv_one, smul_one]

theorem normalize_eq_smul {v : Vec3} {k : ℝ} (h : v.dot v = k) :
    v.normalize = v.smul (Real.sqrt k)⁻¹ := by
  rw [normalize, length, h]

end Vec3

/-- The spherical direction vector used by both camera modes is a unit
vector: `|(cos yaw cos pitch, sin pitch, sin yaw cos pitch)| = 1`. -/
theorem dirVec_dot_one (yaw pitch : ℝ) :
    (dirVec yaw pitch).dot (dirVec yaw pitch) = 1 := by
  simp only [dirVec, Vec3.dot]
  linear_combination (Real.cos pitch) ^ 2 * Real.sin_sq_add_cos_sq yaw
    + Real.sin_sq_add_cos_sq pitch

/-- Core geometry of the shared basis-recompute step: given a unit `front`
vector `f` that is not vertical (`f.x² + f.z² ≠ 0`), the recomputed
`right = normalize(f × world_up)` and `up = normalize(right × f)` with
`world_up = (0,1,0)` form, together with `f`, an orthonormal right-handed
frame. -/
theorem basisFromFront (f : Vec3) (hf : f.dot f = 1) (hxz : f.x ^ 2 + f.z ^ 2 ≠ 0) :
    f.length = 1 ∧
    ((f.cross ⟨0, 1, 0⟩).normalize).length = 1 ∧
    ((((f.cross ⟨0, 1, 0⟩).normalize).cross f).normalize).length = 1 ∧
    f.dot ((f.cross ⟨0, 1, 0⟩).normalize) = 0 ∧
    f.dot ((((f.cross ⟨0, 1, 0⟩).normalize).cross f).normalize) = 0 ∧
    ((f.cross ⟨0, 1, 0⟩).normalize).dot ((((f.cross ⟨0, 1, 0⟩).normalize).cross f).normalize) = 0 ∧
    ((f.cross ⟨0, 1, 0⟩).normalize).cross ((((f.cross ⟨0, 1, 0⟩).normalize).cross f).normalize)
      = -f := by
  have hsum : f.x * f.x + f.y * f.y + f.z * f.z = 1 := hf
  have hpos : 0 < f.x ^ 2 + f.z ^ 2 :=
    lt_of_le_of_ne (by positivity) (Ne.symm hxz)
  set s : ℝ := Real.sqrt (f.x ^ 2 + f.z ^ 2) with hs
  have hspos : 0 < s := Real.sqrt_pos.mpr hpos
  have hsne : s ≠ 0 := ne_of_gt hspos
  have hs2 : s ^ 2 = f.x ^ 2 + f.z ^ 2 := Real.sq_sqrt hpos.le
  have hss : s ^ 2 * (s⁻¹ * s⁻¹) = 1 := by
    rw [pow_two, mul_mul_mul_comm, mul_inv_cancel₀ hsne, one_mul]
  have hR0 : f.cross ⟨0, 1, 0⟩ = ⟨-f.z, 0, f.x⟩ := by
    ext <;> simp [Vec3.cross]
  have hR0dot : (⟨-f.z, 0, f.x⟩ : Vec3).dot ⟨-f.z, 0, f.x⟩ = f.x ^ 2 + f.z ^ 2 := by
    simp [Vec3.dot]
    ring
  have hR : (f.cross ⟨0, 1, 0⟩).normalize = (⟨-f.z, 0, f.x⟩ : Vec3).smul s⁻¹ := by
    rw [hR0, Vec3.normalize_eq_smul hR0dot]
  have hRdot : ((⟨-f.z, 0, f.x⟩ : Vec3).smul s⁻¹).dot ((⟨-f.z, 0, f.x⟩ : Vec3).smul s⁻¹) = 1 := by
    rw [Vec3.dot_smul_smul, hR0dot, ← hs2]
    exact hss
  have hU0 : (⟨-f.z, 0, f.x⟩ : Vec3).cross f
      = ⟨-(f.x * f.y), f.x * f.x + f.z * f.z, -(f.y * f.z)⟩ := by
    ext <;> simp only [Vec3.cross] <;> ring
  have hU0dot : (⟨-(f.x * f.y), f.x * f.x + f.z * f.z, -(f.y * f.z)⟩ : Vec3).dot
      ⟨-(f.x * f.y), f.x * f.x + f.z * f.z, -(f.y * f.z)⟩ = f.x ^ 2 + f.z ^ 2 := by
    simp only [Vec3.dot]
    linear_combination (f.x ^ 2 + f.z ^ 2) * hsum
  have hUc : ((⟨-f.z, 0, f.x⟩ : Vec3).smul s⁻¹).cross f
      = (⟨-(f.x * f.y), f.x * f.x + f.z * f.z, -(f.y * f.z)⟩ : Vec3).smul s⁻¹ := by
    rw [Vec3.cross_smul_left, hU0]
  have hUdot : ((⟨-(f.x * f.y), f.x * f.x + f.z * f.z, -(f.y * f.z)⟩ : Vec3).smul s⁻¹).dot
      ((⟨-(f.x * f.y), f.x * f.x + f.z * f.z, -(f.y * f.z)⟩ : Vec3).smul s⁻¹) = 1 := by
    rw [Vec3.dot_smul_smul, hU0dot, ← hs2]
    exact hss
  have hU : ((f.cross ⟨0, 1, 0⟩).normalize).cross f
      = (⟨-(f.x * f.y), f.x * f.x + f.z * f.z, -(f.y * f.z)⟩ : Vec3).smul s⁻¹ := by
    rw [hR, hUc]
  have hUnorm : (((f.cross ⟨0, 1, 0⟩).normalize).cross f).normalize
      = (⟨-(f.x * f.y), f.x * f.x + f.z * f.z, -(f.y * f.z)⟩ : Vec3).smul s⁻¹ := by
    rw [hU, Vec3.normalize_of_dot_one hUdot]
  refine ⟨Vec3.length_eq_one_of_dot hf, ?_, ?_, ?_, ?_, ?_, ?_⟩
  · rw [hR]
    exact Vec3.length_eq_one_of_dot hRdot
  · rw [hUnorm]
    exact Vec3.length_eq_one_of_dot hUdot
  · rw [hR, Vec3.dot_smul_right]
    have : f.dot ⟨-f.z, 0, f.x⟩ = 0 := by
      simp [Vec3.dot]
      ring
    rw [this, zero_mul]
  · rw [hUnorm, Vec3.dot_smul_right]
    have : f.dot ⟨-(f.x * f.y), f.x * f.x + f.z * f.z, -(f.y * f.z)⟩ = 0 := by
      simp [Vec3.dot]
      ring
    rw [this, zero_mul]
  · rw [hUnorm, hR, Vec3.dot_smul_smul]
    have : (⟨-f.z, 0, f.x⟩ : Vec3).dot ⟨-(f.x * f.y), f.x * f.x + f.z * f.z, -(f.y * f.z)⟩ = 0 := by
      simp [Vec3.dot]
      ring
    rw [this, zero_mul]
  · rw [hUnorm, hR, Vec3.cross_smul_smul]
    have hc : (⟨-f.z, 0, f.x⟩ : Vec3).cross
        ⟨-(f.x * f.y), f.x * f.x + f.z * f.z, -(f.y * f.z)⟩
        = (-f).smul (f.x ^ 2 + f.z ^ 2) := by
      ext <;> simp only [Vec3.cross, Vec3.smul, Vec3.neg_x, Vec3.neg_y, Vec3.neg_z] <;> ring
    rw [hc, Vec3.smul_smul, ← hs2, hss, Vec3.smul_one]

/-- The clamp of the free-fly pitch keeps `cos pitch` strictly positive:
`[-1.5, 1.5]` lies inside `(-pi/2, pi/2)`. -/
theorem cos_freePitch_pos (p : ℝ) : 0 < Real.cos (max (-1.5) (min p 1.5)) := by
  have hpi : (1.5 : ℝ) < Real.pi / 2 := by
    linarith [Real.pi_gt_three]
  apply Real.cos_pos_of_mem_Ioo
  constructor
  · have h1 : (-1.5 : ℝ) ≤ max (-1.5) (min p 1.5) := le_max_left _ _
    linarith
  · have h2 : max (-1.5) (min p 1.5) ≤ 1.5 :=
      max_le (by norm_num) (min_le_right _ _)
    linarith

/-- A scaled spherical direction `dirVec yaw pitch * t` with `t * t = 1` is a
unit vector whose horizontal part is nonzero whenever `cos pitch ≠ 0`. -/
theorem dirVec_smul_front (yaw pitch t : ℝ) (ht : t * t = 1)
    (hcp : Real.cos pitch ≠ 0) :
    ((dirVec yaw pitch).smul t).dot ((dirVec yaw pitch).smul t) = 1 ∧
    ((dirVec yaw pitch).smul t).x ^ 2 + ((dirVec yaw pitch).smul t).z ^ 2 ≠ 0 := by
  constructor
  · rw [Vec3.dot_smul_smul, dirVec_dot_one, one_mul, ht]
  · have hxz : ((dirVec yaw pitch).smul t).x ^ 2 + ((dirVec yaw pitch).smul t).z ^ 2
        = (Real.cos pitch) ^ 2 := by
      simp only [dirVec, Vec3.smul_x, Vec3.smul_z]
      linear_combination ((Real.cos pitch) ^ 2 * (t * t)) * Real.sin_sq_add_cos_sq yaw
        + (Real.cos pitch) ^ 2 * ht
    rw [hxz]
    exact pow_ne_zero 2 hcp

/-- A camera whose basis fields are exactly the recompute-step expressions
over a suitable front vector `f` satisfies the orthonormal-frame invariant. -/
theorem orthonormal_frame_of_basis {cam : Camera} {f : Vec3}
    (hfront : cam.front = f)
    (hright : cam.right = (f.cross ⟨0, 1, 0⟩).normalize)
    (hup : cam.up = (((f.cross ⟨0, 1, 0⟩).normalize).cross f).normalize)
    (hf : f.dot f = 1) (hxz : f.x ^ 2 + f.z ^ 2 ≠ 0) : OrthonormalFrame cam := by
  obtain ⟨h1, h2, h3, h4, h5, h6, h7⟩ := basisFromFront f hf hxz
  refine ⟨?_, ?_, ?_, ?_, ?_, ?_, ?_⟩
  · rw [hfront]; exact h1
  · rw [hright]; exact h2
  · rw [hup]; exact h3
  · rw [hfront, hright]; exact h4
  · rw [hfront, hup]; exact h5
  · rw [hright, hup]; exact h6
  · rw [hright, hup, hfront]; exact h7

namespace Camera

theorem update_free_grabbed_basis (c : Camera) (inp : FrameInput) (hg : c.grabbed = true) :
    (c.update_free inp).front = (dirVec (c.freeYaw inp) (c.freePitch inp)).normalize ∧
    (c.update_free inp).right
      = (((dirVec (c.freeYaw inp) (c.freePitch inp)).normalize).cross c.world_up).normalize ∧
    (c.update_free inp).up
      = (((((dirVec (c.freeYaw inp) (c.freePitch inp)).normalize).cross c.world_up).normalize).cross
          ((dirVec (c.freeYaw inp) (c.freePitch inp)).normalize)).normalize := by
  refine ⟨?_, ?_, ?_⟩ <;> simp [update_free, hg]

theorem update_free_ungrabbed_basis (c : Camera) (inp : FrameInput) (hg : c.grabbed = false) :
    (c.update_free inp).front = c.front ∧
    (c.update_free inp).right = c.right ∧
    (c.update_free inp).up = c.up := by
  refine ⟨?_, ?_, ?_⟩ <;> simp [update_free, hg]

theorem update_with_point_basis (c : Camera) (inp : FrameInput) (p : Vec3) :
    (c.update_with_point inp p).front
      = ((dirVec (c.orbitYaw inp) (c.orbitPitch inp)).smul
          (-(c.orbitRadius inp) * |c.orbitRadius inp|⁻¹)) ∧
    (c.update_with_point inp p).right
      = (((c.update_with_point inp p).front).cross c.world_up).normalize ∧
    (c.update_with_point inp p).up
      = ((((c.update_with_point inp p).front).cross c.world_up).normalize.cross
          ((c.update_with_point inp p).front)).normalize := by
  have hfe : p - (p + (dirVec (c.orbitYaw inp) (c.orbitPitch inp)).smul (c.orbitRadius inp))
      = (dirVec (c.orbitYaw inp) (c.orbitPitch inp)).smul (-(c.orbitRadius inp)) := by
    rw [Vec3.sub_add_cancel_left, Vec3.neg_eq_smul_neg_one]
  have hdot : ((dirVec (c.orbitYaw inp) (c.orbitPitch inp)).smul (-(c.orbitRadius inp))).dot
      ((dirVec (c.orbitYaw inp) (c.orbitPitch inp)).smul (-(c.orbitRadius inp)))
      = c.orbitRadius inp * c.orbitRadius inp := by
    rw [Vec3.dot_smul_smul, dirVec_dot_one, one_mul, neg_mul_neg]
  have hfeq : (c.update_with_point inp p).front
      = ((dirVec (c.orbitYaw inp) (c.orbitPitch inp)).smul
          (-(c.orbitRadius inp) * |c.orbitRadius inp|⁻¹)) := by
    show (p - (p + (dirVec (c.orbitYaw inp) (c.orbitPitch inp)).smul (c.orbitRadius inp))).normalize
        = _
    rw [hfe, Vec3.normalize_eq_smul hdot, Real.sqrt_mul_self_eq_abs, Vec3.smul_smul]
  refine ⟨hfeq, ?_, ?_⟩
  · rw [hfeq]
    show ((p - (p + (dirVec (c.orbitYaw inp) (c.orbitPitch inp)).smul
      (c.orbitRadius inp))).normalize.cross c.world_up).normalize = _
    rw [hfe, Vec3.normalize_eq_smul hdot, Real.sqrt_mul_self_eq_abs, Vec3.smul_smul]
  · rw [hfeq]
    show (((p - (p + (dirVec (c.orbitYaw inp) (c.orbitPitch inp)).smul
        (c.orbitRadius inp))).normalize.cross c.world_up).normalize.cross
        ((p - (p + (dirVec (c.orbitYaw inp) (c.orbitPitch inp)).smul
          (c.orbitRadius inp))).normalize)).normalize = _
    rw [hfe, Vec3.normalize_eq_smul hdot, Real.sqrt_mul_self_eq_abs, Vec3.smul_smul]

/-- One grabbed or ungrabbed free-fly update preserves the orthonormal
frame (the ungrabbed branch does not touch the basis; the grabbed branch
recomputes it from the clamped pitch). -/
theorem update_free_preserves (c : Camera) (inp : FrameInput)
    (h : OrthonormalFrame c) (hw : c.world_up = ⟨0, 1, 0⟩) :
    OrthonormalFrame (c.update_free inp) := by
  by_cases hg : c.grabbed = true
  · obtain ⟨hf, hr, hu⟩ := update_free_grabbed_basis c inp hg
    rw [hw] at hr hu
    have hcp : Real.cos (c.freePitch inp) ≠ 0 := (cos_freePitch_pos _).ne'
    obtain ⟨hdot, hxz⟩ := dirVec_smul_front (c.freeYaw inp) (c.freePitch inp) 1
      (by norm_num) hcp
    rw [Vec3.smul_one] at hdot hxz
    have hnorm : (dirVec (c.freeYaw inp) (c.freePitch inp)).normalize
        = dirVec (c.freeYaw inp) (c.freePitch inp) := Vec3.normalize_of_dot_one hdot
    rw [hnorm] at hf hr hu
    exact orthonormal_frame_of_basis hf hr hu hdot hxz
  · have hg' : c.grabbed = false := by
      cases hgval : c.grabbed
      · rfl
      · exact absurd hgval hg
    obtain ⟨hf, hr, hu⟩ := update_free_ungrabbed_basis c inp hg'
    obtain ⟨h1, h2, h3, h4, h5, h6, h7⟩ := h
    exact ⟨by rw [hf]; exact h1, by rw [hr]; exact h2, by rw [hu]; exact h3,
      by rw [hf, hr]; exact h4, by rw [hf, hu]; exact h5,
      by rw [hr, hu]; exact h6, by rw [hr, hu, hf]; exact h7⟩

/-- One orbit update preserves the orthonormal frame, provided the updated
pitch is not at a pole (`cos pitch' ≠ 0`) and the updated radius is nonzero
(the code has no clamps enforcing either). -/
theorem update_with_point_preserves (c : Camera) (inp : FrameInput) (p : Vec3)
    (hw : c.world_up = ⟨0, 1, 0⟩)
    (hcp : Real.cos (c.orbitPitch inp) ≠ 0)
    (hr : c.orbitRadius inp ≠ 0) :
    OrthonormalFrame (c.update_with_point inp p) := by
  obtain ⟨hf, hrgt, hup⟩ := update_with_point_basis c inp p
  rw [hw] at hrgt hup
  have habs : |c.orbitRadius inp| ≠ 0 := abs_ne_zero.mpr hr
  have ht : (-(c.orbitRadius inp) * |c.orbitRadius inp|⁻¹)
      * (-(c.orbitRadius inp) * |c.orbitRadius inp|⁻¹) = 1 := by
    rw [mul_mul_mul_comm, neg_mul_neg, ← abs_mul_abs_self (c.orbitRadius inp),
      mul_mul_mul_comm, mul_inv_cancel₀ habs, one_mul]
  obtain ⟨hdot, hxz⟩ := dirVec_smul_front (c.orbitYaw inp) (c.orbitPitch inp)
    (-(c.orbitRadius inp) * |c.orbitRadius inp|⁻¹) ht hcp
  rw [hf] at hrgt hup
  exact orthonormal_frame_of_basis hf hrgt hup hdot hxz

end Camera

/- `FocusPoint` (src/main.rs lines 106-111). -/
inductive FocusPoint where
  | None
  | MassCenter
  | Body (index : ℕ)
deriving DecidableEq

/-- Which camera update ran during the focus match of a tick
(src/main.rs lines 316-327). -/
inductive CamAction where
  | free
  | orbit (target : Vec3)

/-- Observable trace of one main-loop tick: the camera action taken, the
focus value right after the match statement, and the `dt` passed to the
physics step (none when the simulation is paused). -/
structure TickTrace where
  action : CamAction
  focusAfterMatch : FocusPoint
  dtUsed : Option ℝ

/-- The mutable state of `main`'s loop (src/main.rs lines 296-304). -/
structure MainState where
  bodies : List Body
  running : Bool
  prevInstant : ℝ
  selectedBody : Option ℕ
  focused : FocusPoint
  camera : Camera

/-- Per-tick external input: camera input signals, the value of
`Instant::now()` at the physics step, and which UI widgets were clicked this
tick (`focusClick`/`removeClick` hold the last per-body button clicked). -/
structure TickInput where
  frame : FrameInput
  now : ℝ
  runClick : Bool
  freeClick : Bool
  mcClick : Bool
  addClick : Bool
  focusClick : Option ℕ
  removeClick : Option ℕ

/-- The focus match at the top of the loop (src/main.rs lines 316-327).
Indexing `bodies[body_index]` is modelled with `List.getElem?`; `none`
models an out-of-bounds panic. -/
def step1 (s : MainState) (inp : TickInput) : Option (Camera × FocusPoint × CamAction) :=
  match s.focused, s.selectedBody with
  | FocusPoint.None, _ =>
      some (s.camera.update_free inp.frame, FocusPoint.None, CamAction.free)
  | FocusPoint.MassCenter, _ =>
      some (s.camera.update_with_point inp.frame (System.mk s.bodies).mass_center,
        FocusPoint.MassCenter, CamAction.orbit (System.mk s.bodies).mass_center)
  | FocusPoint.Body _, some _ =>
      some (s.camera.update_free inp.frame, FocusPoint.None, CamAction.free)
  | FocusPoint.Body i, none =>
      (s.bodies[i]?).map (fun b =>
        (s.camera.update_with_point inp.frame b.position, FocusPoint.Body i,
          CamAction.orbit b.position))

/-- The physics step (src/main.rs lines 334-340): when running,
`accelerate(dt)` then `move_bodies(dt)` with `dt = now - prev_instant`;
`prev_instant` is NOT updated here. -/
def physBodies (s : MainState) (inp : TickInput) : List Body :=
  if s.running then
    (((System.mk s.bodies).accelerate (inp.now - s.prevInstant)).move_bodies
      (inp.now - s.prevInstant)).bodies
  else s.bodies

/-- Body list after the UI pass: `Add new body` (src/main.rs line 380-382)
pushes a default body before the per-body widgets are drawn. -/
def uiBodies (s : MainState) (inp : TickInput) : List Body :=
  if inp.addClick then physBodies s inp ++ [Body.new] else physBodies s inp

def uiLen (s : MainState) (inp : TickInput) : ℕ := (uiBodies s inp).length

/-- Focus value after the UI pass, applying the buttons in program order
(`Free camera`, `Focus camera on mass center`, then per-body `Focus body`
clicks, the last writer winning; src/main.rs lines 370-375, 416-418). -/
def uiFocus (inp : TickInput) (f1 : FocusPoint) : FocusPoint :=
  match inp.focusClick with
  | some i => FocusPoint.Body i
  | none =>
      if inp.mcClick then FocusPoint.MassCenter
      else if inp.freeClick then FocusPoint.None else f1

/-- One whole tick of `main`'s loop (src/main.rs lines 306-436), in program
order: focus match and camera update, `selected_body = None`, physics step,
UI pass (run checkbox resetting `prev_instant`, focus buttons, add, per-body
remove clicks setting `selected_body`), then the deferred removal
`bodies.remove(index)` (line 431-433, modelled as `eraseIdx`, `none` on an
out-of-range index).  Note `selected_body` is NOT cleared after the removal;
it survives into the next tick. -/
def tick (s : MainState) (inp : TickInput) : Option (MainState × TickTrace) :=
  match step1 s inp with
  | none => none
  | some (cam', f1, act) =>
    let bodies2 := uiBodies s inp
    let running' := if inp.runClick then !s.running else s.running
    let prev' := if inp.runClick then inp.now else s.prevInstant
    let focused' := uiFocus inp f1
    let dtUsed := if s.running then some (inp.now - s.prevInstant) else none
    match inp.removeClick with
    | some k =>
        if k < bodies2.length then
          some (⟨bodies2.eraseIdx k, running', prev', some k, focused', cam'⟩,
            ⟨act, f1, dtUsed⟩)
        else none
    | none => some (⟨bodies2, running', prev', none, focused', cam'⟩, ⟨act, f1, dtUsed⟩)

/-- The UI only offers buttons for bodies that exist: any focus or remove
click this tick carries an index below the post-add body-list length. -/
def ValidInput (s : MainState) (inp : TickInput) : Prop :=
  (∀ i, inp.focusClick = some i → i < uiLen s inp) ∧
  (∀ k, inp.removeClick = some k → k < uiLen s inp)

/-- The state at program start (src/main.rs lines 296-304): no bodies, not
running, no pending selection, free focus. -/
def initState (t0 : ℝ) (m : Vec2) : MainState :=
  ⟨[], false, t0, none, FocusPoint.None, Camera.new m⟩

/-- States reachable by the main loop from program start under valid inputs. -/
inductive Reachable : MainState → Prop where
  | init (t0 : ℝ) (m : Vec2) : Reachable (initState t0 m)
  | step {s : MainState} {inp : TickInput} {s' : MainState} {tr : TickTrace} :
      Reachable s → ValidInput s inp → tick s inp = some (s', tr) → Reachable s'

/-- Safety invariant: a focused body index is in bounds unless a removal is
still pending from the previous tick (in which case the match will reset the
focus without indexing). -/
def FocusInv (s : MainState) : Prop :=
  ∀ i, s.focused = FocusPoint.Body i → s.selectedBody = none → i < s.bodies.length

theorem accelerate_length (s : System) (dt : ℝ) :
    (s.accelerate dt).bodies.length = s.bodies.length :=
  (System.accelerateOrder_spec s dt (List.range s.bodies.length) (List.Perm.refl _)).1

theorem physBodies_length (s : MainState) (inp : TickInput) :
    (physBodies s inp).length = s.bodies.length := by
  unfold physBodies
  by_cases h : s.running = true
  · rw [if_pos h]
    show (((System.mk s.bodies).accelerate _).move_bodies _).bodies.length = _
    rw [System.move_bodies]
    simp [accelerate_length]
  · rw [if_neg h]

theorem uiLen_ge (s : MainState) (inp : TickInput) : s.bodies.length ≤ uiLen s inp := by
  unfold uiLen uiBodies
  by_cases h : inp.addClick = true
  · rw [if_pos h, List.length_append, physBodies_length]
    omega
  · rw [if_neg h, physBodies_length]

theorem step1_isSome (s : MainState) (inp : TickInput) (hinv : FocusInv s) :
    ∃ r, step1 s inp = some r := by
  unfold step1
  cases hfoc : s.focused with
  | None => exact ⟨_, rfl⟩
  | MassCenter => exact ⟨_, rfl⟩
  | Body i =>
    cases hsel : s.selectedBody with
    | some j => exact ⟨_, rfl⟩
    | none =>
      have hi : i < s.bodies.length := hinv i hfoc hsel
      simp only [List.getElem?_eq_getElem hi, Option.map_some']
      exact ⟨_, rfl⟩

/-- Unfolding of `tick` once the focus match has produced a result. -/
theorem tick_char (s : MainState) (inp : TickInput) (cam' : Camera) (f1 : FocusPoint)
    (act : CamAction) (h1 : step1 s inp = some (cam', f1, act)) :
    tick s inp =
      match inp.removeClick with
      | some k =>
          if k < (uiBodies s inp).length then
            some (⟨(uiBodies s inp).eraseIdx k,
              if inp.runClick then !s.running else s.running,
              if inp.runClick then inp.now else s.prevInstant,
              some k, uiFocus inp f1, cam'⟩,
              ⟨act, f1, if s.running then some (inp.now - s.prevInstant) else none⟩)
          else none
      | none =>
          some (⟨uiBodies s inp,
            if inp.runClick then !s.running else s.running,
            if inp.runClick then inp.now else s.prevInstant,
            none, uiFocus inp f1, cam'⟩,
            ⟨act, f1, if s.running then some (inp.now - s.prevInstant) else none⟩) := by
  unfold tick
  rw [h1]

theorem tick_of_remove_none (s : MainState) (inp : TickInput) (cam' : Camera)
    (f1 : FocusPoint) (act : CamAction) (h1 : step1 s inp = some (cam', f1, act))
    (hrc : inp.removeClick = none) :
    tick s inp = some (⟨uiBodies s inp,
      if inp.runClick then !s.running else s.running,
      if inp.runClick then inp.now else s.prevInstant,
      none, uiFocus inp f1, cam'⟩,
      ⟨act, f1, if s.running then some (inp.now - s.prevInstant) else none⟩) := by
  rw [tick_char s inp cam' f1 act h1, hrc]

theorem tick_of_remove_some (s : MainState) (inp : TickInput) (cam' : Camera)
    (f1 : FocusPoint) (act : CamAction) (k : ℕ)
    (h1 : step1 s inp = some (cam', f1, act)) (hrc : inp.removeClick = some k)
    (hk : k < (uiBodies s inp).length) :
    tick s inp = some (⟨(uiBodies s inp).eraseIdx k,
      if inp.runClick then !s.running else s.running,
      if inp.runClick then inp.now else s.prevInstant,
      some k, uiFocus inp f1, cam'⟩,
      ⟨act, f1, if s.running then some (inp.now - s.prevInstant) else none⟩) := by
  rw [tick_char s inp cam' f1 act h1, hrc]
  exact if_pos hk

/-- The focus value produced by the match is `None`, `MassCenter`, or an
in-bounds `Body` index. -/
theorem step1_focus (s : MainState) (inp : TickInput) (cam' : Camera) (f1 : FocusPoint)
    (act : CamAction) (h1 : step1 s inp = some (cam', f1, act)) :
    f1 = FocusPoint.None ∨ f1 = FocusPoint.MassCenter ∨
    (∃ m, f1 = FocusPoint.Body m ∧ m < s.bodies.length) := by
  unfold step1 at h1
  cases hfoc : s.focused with
  | None =>
    rw [hfoc] at h1
    injection h1 with h2
    injection h2 with hcam h3
    injection h3 with hfocus hact
    exact Or.inl hfocus.symm
  | MassCenter =>
    rw [hfoc] at h1
    injection h1 with h2
    injection h2 with hcam h3
    injection h3 with hfocus hact
    exact Or.inr (Or.inl hfocus.symm)
  | Body i =>
    rw [hfoc] at h1
    cases hsel : s.selectedBody with
    | some j =>
      rw [hsel] at h1
      injection h1 with h2
      injection h2 with hcam h3
      injection h3 with hfocus hact
      exact Or.inl hfocus.symm
    | none =>
      rw [hsel] at h1
      cases hoe : s.bodies[i]? with
      | none =>
        simp [hoe] at h1
      | some b =>
        simp only [hoe, Option.map_some'] at h1
        injection h1 with h2
        injection h2 with hcam h3
        injection h3 with hfocus hact
        obtain ⟨hlt, _⟩ := List.getElem?_eq_some.mp hoe
        exact Or.inr (Or.inr ⟨i, hfocus.symm, hlt⟩)

/-- When a removal is pending, the `Body` arm of the match resets the focus
to `None` and runs the free-fly update (src/main.rs lines 319-322). -/
theorem step1_body_selected (s : MainState) (inp : TickInput) (m : ℕ) (j : ℕ)
    (hfoc : s.focused = FocusPoint.Body m) (hsel : s.selectedBody = some j) :
    step1 s inp = some (s.camera.update_free inp.frame, FocusPoint.None, CamAction.free) := by
  unfold step1
  rw [hfoc, hsel]

theorem tick_isSome (s : MainState) (inp : TickInput) (hinv : FocusInv s)
    (hv : ValidInput s inp) : ∃ r, tick s inp = some r := by
  obtain ⟨⟨cam', f1, act⟩, h1⟩ := step1_isSome s inp hinv
  cases hrc : inp.removeClick with
  | some k =>
    have hk : k < (uiBodies s inp).length := hv.2 k hrc
    exact ⟨_, tick_of_remove_some s inp cam' f1 act k h1 hrc hk⟩
  | none =>
    exact ⟨_, tick_of_remove_none s inp cam' f1 act h1 hrc⟩

/-- The focus-safety invariant is preserved by every valid tick. -/
theorem focusInv_step {s : MainState} {inp : TickInput} {s' : MainState} {tr : TickTrace}
    (hinv : FocusInv s) (hv : ValidInput s inp) (h : tick s inp = some (s', tr)) :
    FocusInv s' := by
  obtain ⟨⟨cam', f1, act⟩, h1⟩ := step1_isSome s inp hinv
  cases hrc : inp.removeClick with
  | some k =>
    have hk : k < (uiBodies s inp).length := hv.2 k hrc
    have heq := (tick_of_remove_some s inp cam' f1 act k h1 hrc hk).symm.trans h
    rw [Option.some.injEq] at heq
    have hs' : s' = ⟨(uiBodies s inp).eraseIdx k,
        if inp.runClick then !s.running else s.running,
        if inp.runClick then inp.now else s.prevInstant,
        some k, uiFocus inp f1, cam'⟩ := (congrArg Prod.fst heq).symm
    intro m hm hsel
    rw [hs'] at hsel
    exact absurd hsel (by simp)
  | none =>
    have heq := (tick_of_remove_none s inp cam' f1 act h1 hrc).symm.trans h
    rw [Option.some.injEq] at heq
    have hs' : s' = ⟨uiBodies s inp,
        if inp.runClick then !s.running else s.running,
        if inp.runClick then inp.now else s.prevInstant,
        none, uiFocus inp f1, cam'⟩ := (congrArg Prod.fst heq).symm
    intro m hm _
    rw [hs'] at hm ⊢
    show m < (uiBodies s inp).length
    have hm' : uiFocus inp f1 = FocusPoint.Body m := hm
    unfold uiFocus at hm'
    cases hfc : inp.focusClick with
    | some i =>
      rw [hfc] at hm'
      injection hm' with hi
      rw [← hi]
      exact hv.1 i hfc
    | none =>
      rw [hfc] at hm'
      by_cases hmc : inp.mcClick = true
      · rw [if_pos hmc] at hm'
        exact absurd hm' (by simp)
      · rw [if_neg hmc] at hm'
        by_cases hfr : inp.freeClick = true
        · rw [if_pos hfr] at hm'
          exact absurd hm' (by simp)
        · rw [if_neg hfr] at hm'
          rcases step1_focus s inp cam' f1 act h1 with hN | hMC | ⟨m', hB, hlt⟩
          · exact absurd (hm'.symm.trans hN) (by simp)
          · exact absurd (hm'.symm.trans hMC) (by simp)
          · have hmm : m = m' := by
              have hbb := hm'.symm.trans hB
              injection hbb
            rw [hmm]
            exact lt_of_lt_of_le hlt (uiLen_ge s inp)

/-- Every reachable main-loop state satisfies the focus-safety invariant. -/
theorem reachable_focusInv {s : MainState} (h : Reachable s) : FocusInv s := by
  induction h with
  | init t0 m =>
    intro i hi _
    simp [initState] at hi
  | step hr hv ht ih =>
    exact focusInv_step ih hv ht

/-- The `number_line!` macro body (src/main.rs lines 389-402): when the text
edit reports a change, parse the buffer as `f32` and assign the field on
success; keep the old field value on a parse failure.  String-to-float
parsing is an external collaborator; its outcome is the `parsed` argument
(`some v` for `Ok(v)`, `none` for `Err`). -/
def numberLine (current : ℝ) (changed : Bool) (parsed : Option ℝ) : ℝ :=
  if changed then
    match parsed with
    | some v => v
    | none => current
  else current

/-- Membership in the convex hull of a finite list of points, expressed via
convex combinations: nonnegative weights summing to 1. -/
def InConvexHull (pts : List Vec3) (v : Vec3) : Prop :=
  ∃ w : List ℝ, w.length = pts.length ∧ (∀ c ∈ w, 0 ≤ c) ∧ w.sum = 1 ∧
    (List.zipWith (fun c p => p.smul c) w pts).sum = v

/-- `mass_center` on the empty collection returns the zero vector
(src/main.rs lines 94-95). -/
theorem mass_center_empty : (System.mk []).mass_center = ⟨0, 0, 0⟩ := by
  simp [System.mass_center]

/-- `mass_center` on a non-empty collection is the fold-free formula
`(Σ position*mass) / (Σ mass) * POSITION_SCALE`. -/
theorem mass_center_formula (s : System) (hne : s.bodies ≠ []) :
    s.mass_center = (((s.bodies.map (fun b : Body => b.position.smul b.mass)).sum).divScalar
      ((s.bodies.map (fun b : Body => b.mass)).sum)).smul POSITION_SCALE := by
  unfold System.mass_center
  rw [if_neg (by simpa [List.isEmpty_iff] using hne),
    foldl_add_map_sum (fun b : Body => b.position.smul b.mass),
    foldl_add_map_sum (fun b : Body => b.mass)]
  simp

/-- The divisor of `mass_center` is the folded total mass, which is strictly
positive when the collection is non-empty and all masses are positive. -/
theorem massDenominator_pos (s : System) (hne : s.bodies ≠ [])
    (hpos : ∀ b ∈ s.bodies, 0 < b.mass) : 0 < s.massDenominator := by
  unfold System.massDenominator
  rw [foldl_add_map_sum (fun b : Body => b.mass)]
  have hsum : 0 < (s.bodies.map (fun b => b.mass)).sum := by
    apply List.sum_pos
    · intro x hx
      obtain ⟨b, hb, rfl⟩ := List.mem_map.mp hx
      exact hpos b hb
    · intro hmap
      exact hne (List.map_eq_nil_iff.mp hmap)
  rw [zero_add]
  exact hsum

/- Exact model of IEEE-754 `f32` special values: a value is a finite real,
a signed infinity, or NaN.  Finite arithmetic is exact (no rounding, no
overflow), which is faithful on traces whose values are exactly
representable; the special-value propagation rules are those of IEEE 754
as implemented by Rust `f32` and glam. -/
inductive FVal where
  | finite (val : ℝ)
  | inf (neg : Bool)
  | nan

namespace FVal

def sub : FVal → FVal → FVal
  | nan, _ => nan
  | _, nan => nan
  | finite a, finite b => finite (a - b)
  | inf s, finite _ => inf s
  | finite _, inf t => inf (!t)
  | inf s, inf t => if s = t then nan else inf s

def mul : FVal → FVal → FVal
  | nan, _ => nan
  | _, nan => nan
  | finite a, finite b => finite (a * b)
  | inf s, inf t => inf (xor s t)
  | inf s, finite b => if b = 0 then nan else inf (xor s (decide (b < 0)))
  | finite a, inf t => if a = 0 then nan else inf (xor (decide (a < 0)) t)

def add : FVal → FVal → FVal
  | nan, _ => nan
  | _, nan => nan
  | finite a, finite b => finite (a + b)
  | inf s, inf t => if s = t then inf s else nan
  | inf s, finite _ => inf s
  | finite _, inf t => inf t

def sqrtF : FVal → FVal
  | nan => nan
  | inf s => if s then nan else inf false
  | finite a => if a < 0 then nan else finite (Real.sqrt a)

def recip : FVal → FVal
  | nan => nan
  | inf _ => finite 0
  | finite a => if a = 0 then inf false else finite a⁻¹

def div : FVal → FVal → FVal
  | nan, _ => nan
  | _, nan => nan
  | finite a, finite b =>
      if b = 0 then (if a = 0 then nan else inf (decide (a < 0))) else finite (a / b)
  | inf s, finite b => inf (xor s (decide (b < 0)))
  | finite _, inf _ => finite 0
  | inf _, inf _ => nan

/-- IEEE `<` as a Bool: any comparison involving NaN is false. -/
def lt : FVal → FVal → Bool
  | nan, _ => false
  | _, nan => false
  | finite a, finite b => decide (a < b)
  | inf s, inf t => s && !t
  | inf s, finite _ => s
  | finite _, inf t => !t

end FVal

/- 3-vector over `FVal`, mirroring the glam `Vec3` operations used by
`find_acceleration`. -/
structure V3F where
  x : FVal
  y : FVal
  z : FVal

def v3sub (a b : V3F) : V3F := ⟨a.x.sub b.x, a.y.sub b.y, a.z.sub b.z⟩

def v3dot (a b : V3F) : FVal := ((a.x.mul b.x).add (a.y.mul b.y)).add (a.z.mul b.z)

def v3scale (v : V3F) (c : FVal) : V3F := ⟨v.x.mul c, v.y.mul c, v.z.mul c⟩

/-- glam `Vec3::length`: `sqrt(dot(self, self))`. -/
def v3length (v : V3F) : FVal := (v3dot v v).sqrtF

/-- glam `Vec3::normalize`: `self * self.length().recip()`. -/
def v3normalize (v : V3F) : V3F := v3scale v (v3length v).recip

def v3add (a b : V3F) : V3F := ⟨a.x.add b.x, a.y.add b.y, a.z.add b.z⟩

/- A `Body` in the `FVal` model (src/main.rs lines 22-29). -/
structure FBody where
  mass : FVal
  radius : FVal
  position : V3F
  velocity : V3F
  color : FVal × FVal × FVal

/-- `Body::find_acceleration` (src/main.rs lines 46-59) over the `FVal`
model, operation for operation: the separation vector is normalised BEFORE
the `r < EPS` guard is consulted. -/
def find_accelerationF (self other : FBody) : V3F :=
  let vector := v3sub other.position self.position
  let r := v3length vector
  let normalized := v3normalize vector
  let acceleration :=
    if FVal.lt r (FVal.finite Body.EPS) then FVal.finite 0
    else ((FVal.finite Body.G).mul other.mass).div (r.mul r)
  v3scale normalized acceleration

/-- `Body::new` (src/main.rs lines 32-40) in the `FVal` model: mass `1e9`,
radius `5`, zero position and velocity, white colour. -/
def bodyNewF : FBody :=
  ⟨FVal.finite 1000000000, FVal.finite 5,
    ⟨FVal.finite 0, FVal.finite 0, FVal.finite 0⟩,
    ⟨FVal.finite 0, FVal.finite 0, FVal.finite 0⟩,
    (FVal.finite 1, FVal.finite 1, FVal.finite 1)⟩

/-- At exactly coincident (finite) positions `find_acceleration` returns the
all-NaN vector: the zero separation vector is normalised — dividing 0 by 0 —
BEFORE the EPS guard runs, and the final `NaN * 0.0` stays NaN. -/
theorem find_accelerationF_coincident (self other : FBody) (px py pz : ℝ)
    (h1 : self.position = ⟨FVal.finite px, FVal.finite py, FVal.finite pz⟩)
    (h2 : other.position = ⟨FVal.finite px, FVal.finite py, FVal.finite pz⟩) :
    find_accelerationF self other = ⟨FVal.nan, FVal.nan, FVal.nan⟩ := by
  simp only [find_accelerationF, h1, h2, v3sub, v3dot, v3scale, v3length, v3normalize,
    FVal.sub, FVal.mul, FVal.add, FVal.sqrtF, FVal.recip, FVal.lt, sub_self]
  norm_num [Real.sqrt_zero, Body.EPS]

/-- `Body::accelerate` (src/main.rs lines 42-44) in the `FVal` model:
`velocity += a * dt`. -/
def accelerateBF (b : FBody) (a : V3F) (dt : FVal) : FBody :=
  { b with velocity := v3add b.velocity (v3scale a dt) }

/-- `Body::accelerate_by_body` (src/main.rs lines 61-63) in the `FVal`
model. -/
def accelerate_by_bodyF (self other : FBody) (dt : FVal) : FBody :=
  accelerateBF self (find_accelerationF self other) dt

/-- Inner loop of `System::accelerate` (src/main.rs lines 77-82) in the
`FVal` model. -/
def innerPassF (bs : List FBody) (dt : FVal) (i : ℕ) : FBody :=
  (List.range bs.length).foldl
    (fun cur j => if i ≠ j then accelerate_by_bodyF cur (bs.getD j bodyNewF) dt else cur)
    (bs.getD i bodyNewF)

/-- `System::accelerate` (src/main.rs lines 75-85) in the `FVal` model:
outer loop over `i in 0..len`, writing `bodies[i]` back after each inner
pass. -/
def accelerateF (bs : List FBody) (dt : FVal) : List FBody :=
  (List.range bs.length).foldl (fun l i => l.set i (innerPassF l dt i)) bs

theorem Vec3.smul_divScalar_cancel (v : Vec3) (c : ℝ) (hc : c ≠ 0) :
    (v.smul c).divScalar c = v := by
  ext <;> simp [Vec3.smul, Vec3.divScalar] <;> field_simp

/-- Claim C1: for every body collection and every `dt`,
`System::accelerate(dt)` leaves every body's position, mass, radius and
colour unchanged and sets body `i`'s velocity to its old velocity plus the
sum over `j ≠ i` of the pairwise accelerations — computed from the
positions and masses all bodies had at the start of the call — times `dt`;
consequently processing the bodies in any order (any permutation of
`0..len`) yields exactly the same result as the code's ascending order. -/
theorem c1_accelerate_snapshot (s : System) (dt : ℝ) (order : List ℕ)
    (hperm : order.Perm (List.range s.bodies.length)) (i : ℕ)
    (hi : i < s.bodies.length) :
    ((s.accelerate dt).bodies.getD i Body.new).mass = (s.bodies.getD i Body.new).mass ∧
    ((s.accelerate dt).bodies.getD i Body.new).radius = (s.bodies.getD i Body.new).radius ∧
    ((s.accelerate dt).bodies.getD i Body.new).position = (s.bodies.getD i Body.new).position ∧
    ((s.accelerate dt).bodies.getD i Body.new).color = (s.bodies.getD i Body.new).color ∧
    ((s.accelerate dt).bodies.getD i Body.new).velocity
      = (s.bodies.getD i Body.new).velocity + (System.netAccel s.bodies i).smul dt ∧
    s.accelerateOrder dt order = s.accelerate dt := by
  obtain ⟨l2, m2, r2, p2, c2, v2⟩ :=
    System.accelerateOrder_spec s dt (List.range s.bodies.length) (List.Perm.refl _)
  refine ⟨m2 i, r2 i, p2 i, c2 i, ?_,
    System.accelerateOrder_eq_accelerate s dt order hperm⟩
  have hvi := v2 i
  rw [if_pos hi] at hvi
  exact hvi

/-- Witness for C1: a concrete two-body system, processed in the reversed
order `[1, 0]`, at index 0. -/
theorem c1_accelerate_snapshot_witness :
    [1, 0].Perm (List.range (System.mk [Body.new, Body.new]).bodies.length) ∧
    0 < (System.mk [Body.new, Body.new]).bodies.length ∧
    (((System.mk [Body.new, Body.new]).accelerate 1).bodies.getD 0 Body.new).mass
      = ((System.mk [Body.new, Body.new]).bodies.getD 0 Body.new).mass ∧
    (((System.mk [Body.new, Body.new]).accelerate 1).bodies.getD 0 Body.new).radius
      = ((System.mk [Body.new, Body.new]).bodies.getD 0 Body.new).radius ∧
    (((System.mk [Body.new, Body.new]).accelerate 1).bodies.getD 0 Body.new).position
      = ((System.mk [Body.new, Body.new]).bodies.getD 0 Body.new).position ∧
    (((System.mk [Body.new, Body.new]).accelerate 1).bodies.getD 0 Body.new).color
      = ((System.mk [Body.new, Body.new]).bodies.getD 0 Body.new).color ∧
    (((System.mk [Body.new, Body.new]).accelerate 1).bodies.getD 0 Body.new).velocity
      = ((System.mk [Body.new, Body.new]).bodies.getD 0 Body.new).velocity
        + (System.netAccel (System.mk [Body.new, Body.new]).bodies 0).smul 1 ∧
    (System.mk [Body.new, Body.new]).accelerateOrder 1 [1, 0]
      = (System.mk [Body.new, Body.new]).accelerate 1 :=
  ⟨by decide, by decide,
    c1_accelerate_snapshot (System.mk [Body.new, Body.new]) 1 [1, 0] (by decide) 0 (by decide)⟩

/-- Claim C2 (code bug): at exactly coincident positions the EPS guard does
NOT produce the zero vector: `normalize` divides the zero separation vector
by a zero length BEFORE the guard runs, so the components become
`0 * (1/0) = 0 * inf = NaN`, and the final `normalized * 0.0` is
`NaN * 0 = NaN` — not zero.  Evaluated here on two default bodies (both at
the origin) in the exact IEEE special-value model. -/
theorem c2_find_acceleration_coincident_nan :
    find_accelerationF bodyNewF bodyNewF = ⟨FVal.nan, FVal.nan, FVal.nan⟩ :=
  find_accelerationF_coincident bodyNewF bodyNewF 0 0 0 rfl rfl

/-- Over the exact real-arithmetic embedding (where `normalize 0 = 0`
collapses the coincident-position NaN path of the `f32` code),
`move_bodies(0)` and `accelerate(0)` are identities.  The `FVal`-model
result for claim C8 below shows the `f32` code deviates from this at
exactly coincident positions. -/
theorem zero_dt_idempotent_exact (s : System) :
    s.move_bodies 0 = s ∧ s.accelerate 0 = s :=
  ⟨System.move_bodies_zero s, System.accelerate_zero s⟩

/-- Claim C8 (code bug): `accelerate(0)` does NOT leave every body
collection unchanged.  On two exactly coincident default bodies (two
clicks of `Add new body`), `find_acceleration` returns the all-NaN vector
— the zero separation is normalised, dividing 0 by 0, before the EPS guard
— and the velocity update `velocity += NaN * 0.0` makes both velocities
NaN even at `dt = 0`, so the state changes.  Evaluated here on the failing
input `[Body::new, Body::new]` in the exact IEEE special-value model. -/
theorem c8_accelerate_zero_changes_state :
    accelerateF [bodyNewF, bodyNewF] (FVal.finite 0)
      = [{ bodyNewF with velocity := ⟨FVal.nan, FVal.nan, FVal.nan⟩ },
         { bodyNewF with velocity := ⟨FVal.nan, FVal.nan, FVal.nan⟩ }] ∧
    accelerateF [bodyNewF, bodyNewF] (FVal.finite 0) ≠ [bodyNewF, bodyNewF] := by
  have hnan1 : find_accelerationF bodyNewF bodyNewF = ⟨FVal.nan, FVal.nan, FVal.nan⟩ :=
    find_accelerationF_coincident bodyNewF bodyNewF 0 0 0 rfl rfl
  have hvel : bodyNewF.velocity = (⟨FVal.finite 0, FVal.finite 0, FVal.finite 0⟩ : V3F) := rfl
  have heval : accelerateF [bodyNewF, bodyNewF] (FVal.finite 0)
      = [{ bodyNewF with velocity := ⟨FVal.nan, FVal.nan, FVal.nan⟩ },
         { bodyNewF with velocity := ⟨FVal.nan, FVal.nan, FVal.nan⟩ }] := by
    simp only [accelerateF, innerPassF, accelerate_by_bodyF, accelerateBF,
      List.length_cons, List.length_nil, List.range_succ, List.range_zero,
      List.nil_append, List.cons_append, List.foldl_cons, List.foldl_nil,
      List.set_cons_zero, List.set_cons_succ,
      List.getD_cons_zero, List.getD_cons_succ, ne_eq]
    norm_num
    rw [hnan1]
    simp only [v3scale, FVal.mul, hvel, v3add, FVal.add]
    rw [find_accelerationF_coincident bodyNewF _ 0 0 0 rfl rfl]
    simp only [v3scale, FVal.mul, hvel, v3add, FVal.add]
    exact ⟨trivial, trivial⟩
  refine ⟨heval, ?_⟩
  rw [heval]
  intro h
  injection h with hhead _
  have hv := congrArg FBody.velocity hhead
  exact absurd hv (by simp [bodyNewF])

/-- Claim C9: an edited numeric text line assigns the parsed value on a
successful parse and keeps the prior field value when parsing fails; no
error value is produced in either case (the function is total). -/
theorem c9_number_line_parse (cur v : ℝ) :
    numberLine cur true (some v) = v ∧ numberLine cur true none = cur :=
  ⟨rfl, rfl⟩

/-- Counterexample for C5 as stated: a non-empty collection containing a
single zero-mass body (reachable by editing a body's mass to `0`) makes the
`mass_center` divisor zero, so the division by `Σ mass` IS a division by
zero; the claim's "no division by zero in either case" fails on it. -/
theorem c5_counterexample :
    (System.mk [{ Body.new with mass := 0 }]).bodies ≠ [] ∧
    (System.mk [{ Body.new with mass := 0 }]).massDenominator = 0 := by
  constructor
  · simp
  · simp [System.massDenominator]

/-- Claim C5 (amended): `mass_center` returns the zero vector on the empty
collection and otherwise `(Σ position*mass) / (Σ mass) * POSITION_SCALE`;
the divisor is nonzero provided every mass is positive (the code does not
guard against zero or negative masses, for which the divisor can be 0). -/
theorem c5_mass_center_spec (s : System) (hne : s.bodies ≠ [])
    (hpos : ∀ b ∈ s.bodies, 0 < b.mass) :
    (System.mk []).mass_center = ⟨0, 0, 0⟩ ∧
    s.massDenominator ≠ 0 ∧
    s.mass_center = (((s.bodies.map (fun b : Body => b.position.smul b.mass)).sum).divScalar
      ((s.bodies.map (fun b : Body => b.mass)).sum)).smul POSITION_SCALE :=
  ⟨mass_center_empty, (massDenominator_pos s hne hpos).ne', mass_center_formula s hne⟩

/-- Witness for C5 at a concrete one-body system with the default mass. -/
theorem c5_mass_center_spec_witness :
    ((System.mk [Body.new]).bodies ≠ [] ∧
      (∀ b ∈ (System.mk [Body.new]).bodies, 0 < b.mass)) ∧
    (System.mk []).mass_center = ⟨0, 0, 0⟩ ∧
    (System.mk [Body.new]).massDenominator ≠ 0 ∧
    (System.mk [Body.new]).mass_center
      = ((((System.mk [Body.new]).bodies.map (fun b : Body => b.position.smul b.mass)).sum).divScalar
        (((System.mk [Body.new]).bodies.map (fun b : Body => b.mass)).sum)).smul POSITION_SCALE :=
  ⟨⟨by simp, by
      intro b hb
      simp only [List.mem_singleton] at hb
      rw [hb]
      norm_num [Body.new]⟩,
    c5_mass_center_spec (System.mk [Body.new]) (by simp) (by
      intro b hb
      simp only [List.mem_singleton] at hb
      rw [hb]
      norm_num [Body.new])⟩

/-- The one-body system used to refute C7 as stated: mass 1 at
`(1000, 0, 0)`. -/
def c7System : System := System.mk [{ Body.new with mass := 1, position := ⟨1000, 0, 0⟩ }]

/-- Counterexample for C7 as stated: because `mass_center` multiplies by
`POSITION_SCALE = 0.001`, the returned point `(1, 0, 0)` is NOT in the
convex hull of the body positions (the hull of the single position
`(1000, 0, 0)` is that point alone). -/
theorem c7_counterexample :
    ¬ InConvexHull (c7System.bodies.map (fun b : Body => b.position))
      c7System.mass_center := by
  intro ⟨w, hlen, _, hsum, hcomb⟩
  have hmap : c7System.bodies.map (fun b : Body => b.position) = [⟨1000, 0, 0⟩] := by
    simp [c7System]
  rw [hmap] at hlen hcomb
  match w, hlen with
  | [c], _ =>
    have hc : c = 1 := by simpa using hsum
    subst hc
    have hx : (List.zipWith (fun c p => Vec3.smul p c) [(1 : ℝ)] [(⟨1000, 0, 0⟩ : Vec3)]).sum.x
        = 1000 := by
      simp [Vec3.smul]
    have hmc : c7System.mass_center.x = 1 := by
      rw [mass_center_formula c7System (by simp [c7System])]
      simp [c7System, Vec3.smul, POSITION_SCALE]
      norm_num
    rw [hcomb] at hx
    rw [hmc] at hx
    norm_num at hx

/-- Claim C7 (amended): for every non-empty collection with positive masses,
the UNSCALED weighted average — `mass_center` divided back by
`POSITION_SCALE` — lies in the convex hull of the body positions (the
scaled value returned by `mass_center` itself lies in the hull scaled by
`POSITION_SCALE`, not in the hull of the positions). -/
theorem c7_mass_center_hull (s : System) (hne : s.bodies ≠ [])
    (hpos : ∀ b ∈ s.bodies, 0 < b.mass) :
    InConvexHull (s.bodies.map (fun b : Body => b.position))
      (s.mass_center.divScalar POSITION_SCALE) := by
  have hM : 0 < (s.bodies.map (fun b : Body => b.mass)).sum := by
    apply List.sum_pos
    · intro x hx
      obtain ⟨b, hb, rfl⟩ := List.mem_map.mp hx
      exact hpos b hb
    · intro hmap
      exact hne (List.map_eq_nil_iff.mp hmap)
  refine ⟨s.bodies.map (fun b : Body => b.mass / (s.bodies.map (fun b : Body => b.mass)).sum),
    by simp, ?_, ?_, ?_⟩
  · intro c hc
    obtain ⟨b, hb, rfl⟩ := List.mem_map.mp hc
    exact div_nonneg (hpos b hb).le hM.le
  · rw [sum_map_div]
    exact div_self hM.ne'
  · rw [List.zipWith_map (fun c p => Vec3.smul p c)
      (fun b : Body => b.mass / (s.bodies.map (fun b : Body => b.mass)).sum)
      (fun b : Body => b.position) s.bodies s.bodies,
      List.zipWith_same, sum_map_smul_div]
    rw [mass_center_formula s hne, Vec3.smul_divScalar_cancel _ _ (by norm_num [POSITION_SCALE])]

/-- Witness for C7 at a concrete one-body system with the default mass. -/
theorem c7_mass_center_hull_witness :
    ((System.mk [Body.new]).bodies ≠ [] ∧
      (∀ b ∈ (System.mk [Body.new]).bodies, 0 < b.mass)) ∧
    InConvexHull ((System.mk [Body.new]).bodies.map (fun b : Body => b.position))
      ((System.mk [Body.new]).mass_center.divScalar POSITION_SCALE) :=
  ⟨⟨by simp, by
      intro b hb
      simp only [List.mem_singleton] at hb
      rw [hb]
      norm_num [Body.new]⟩,
    c7_mass_center_hull (System.mk [Body.new]) (by simp) (by
      intro b hb
      simp only [List.mem_singleton] at hb
      rw [hb]
      norm_num [Body.new])⟩

/-- Claim C10: an ungrabbed `update_free` call leaves yaw, pitch, the whole
basis, the drift fields `x` and `switch` (and radius, bounds, world_up,
grabbed) unchanged; only the position moves — exactly by the six
movement-key translations — and `last_mouse_position` is always resampled
to the current mouse position. -/
theorem c10_update_free_ungrabbed (c : Camera) (inp : FrameInput)
    (hg : c.grabbed = false) :
    (c.update_free inp).yaw = c.yaw ∧
    (c.update_free inp).pitch = c.pitch ∧
    (c.update_free inp).front = c.front ∧
    (c.update_free inp).right = c.right ∧
    (c.update_free inp).up = c.up ∧
    (c.update_free inp).x = c.x ∧
    (c.update_free inp).switch = c.switch ∧
    (c.update_free inp).radius = c.radius ∧
    (c.update_free inp).bounds = c.bounds ∧
    (c.update_free inp).world_up = c.world_up ∧
    (c.update_free inp).grabbed = c.grabbed ∧
    (c.update_free inp).position = c.freePosition inp ∧
    (c.update_free inp).last_mouse_position = inp.mousePos := by
  refine ⟨?_, ?_, ?_, ?_, ?_, ?_, ?_, ?_, ?_, ?_, ?_, ?_, ?_⟩ <;>
    simp [Camera.update_free, hg]

/-- A concrete ungrabbed camera for the C10 witness. -/
def cameraUngrabbed : Camera :=
  ⟨0, false, 8, ⟨0, 1, 0⟩, 0, 0, 5, ⟨1, 0, 0⟩, ⟨0, 0, 1⟩, ⟨0, 1, 0⟩, ⟨0, 0, 0⟩, ⟨0, 0⟩, false⟩

/-- A concrete frame input with no keys held. -/
def inputIdle : FrameInput := ⟨false, false, false, false, false, false, ⟨0, 0⟩, 0.016⟩

/-- Witness for C10 at the concrete ungrabbed camera and idle input. -/
theorem c10_update_free_ungrabbed_witness :
    cameraUngrabbed.grabbed = false ∧
    (cameraUngrabbed.update_free inputIdle).yaw = cameraUngrabbed.yaw ∧
    (cameraUngrabbed.update_free inputIdle).pitch = cameraUngrabbed.pitch ∧
    (cameraUngrabbed.update_free inputIdle).front = cameraUngrabbed.front ∧
    (cameraUngrabbed.update_free inputIdle).right = cameraUngrabbed.right ∧
    (cameraUngrabbed.update_free inputIdle).up = cameraUngrabbed.up ∧
    (cameraUngrabbed.update_free inputIdle).x = cameraUngrabbed.x ∧
    (cameraUngrabbed.update_free inputIdle).switch = cameraUngrabbed.switch ∧
    (cameraUngrabbed.update_free inputIdle).radius = cameraUngrabbed.radius ∧
    (cameraUngrabbed.update_free inputIdle).bounds = cameraUngrabbed.bounds ∧
    (cameraUngrabbed.update_free inputIdle).world_up = cameraUngrabbed.world_up ∧
    (cameraUngrabbed.update_free inputIdle).grabbed = cameraUngrabbed.grabbed ∧
    (cameraUngrabbed.update_free inputIdle).position = cameraUngrabbed.freePosition inputIdle ∧
    (cameraUngrabbed.update_free inputIdle).last_mouse_position = inputIdle.mousePos :=
  ⟨rfl, c10_update_free_ungrabbed cameraUngrabbed inputIdle rfl⟩

/-- A concrete grabbed camera one zoom step away from radius 0, with an
orthonormal basis (looking along +x). -/
def cameraAtMinRadius : Camera :=
  ⟨0, false, 8, ⟨0, 1, 0⟩, 0, 0, 0.02, ⟨1, 0, 0⟩, ⟨0, 0, 1⟩, ⟨0, 1, 0⟩, ⟨0, 0, 0⟩, ⟨0, 0⟩, true⟩

/-- A concrete frame input holding only W (orbit zoom-in). -/
def inputZoomIn : FrameInput := ⟨true, false, false, false, false, false, ⟨0, 0⟩, 0.016⟩

/-- Counterexample for C4 as stated: one orbit update from an orthonormal
state with radius `0.02` and W held drives the unclamped radius to exactly
`0`, making `front = normalize(0)` degenerate — the resulting triple is not
orthonormal (here `|front| = 0`, not `1`; the `f32` code produces NaN). -/
theorem c4_counterexample :
    ¬ OrthonormalFrame (cameraAtMinRadius.update_with_point inputZoomIn (0 : Vec3)) := by
  intro h
  obtain ⟨h1, _⟩ := h
  have hrad : cameraAtMinRadius.orbitRadius inputZoomIn = 0 := by
    simp [Camera.orbitRadius, cameraAtMinRadius, inputZoomIn, MOVE_SPEED]
    norm_num
  have hfront : (cameraAtMinRadius.update_with_point inputZoomIn (0 : Vec3)).front = 0 := by
    show ((0 : Vec3) - ((0 : Vec3) + (dirVec (cameraAtMinRadius.orbitYaw inputZoomIn)
      (cameraAtMinRadius.orbitPitch inputZoomIn)).smul
      (cameraAtMinRadius.orbitRadius inputZoomIn))).normalize = 0
    have hsz : (0 : Vec3) - (0 : Vec3) = 0 := by ext <;> simp
    rw [hrad, Vec3.smul_zero_right, add_zero, hsz, Vec3.normalize_zero]
  rw [hfront, Vec3.length_zero] at h1
  norm_num at h1

/-- Claim C4 (amended): every free-fly update preserves the right-handed
orthonormal basis (its pitch clamp keeps `cos pitch > 0`, and the ungrabbed
branch does not touch the basis); an orbit update preserves it provided the
updated pitch is not at a pole (`cos pitch ≠ 0`) and the updated radius is
nonzero — the orbit mode has no clamps enforcing either, and at radius 0 or
pitch `±π/2` the recomputed basis degenerates (see the counterexample). -/
theorem c4_camera_updates_orthonormal (c : Camera) (inp : FrameInput) (p : Vec3)
    (h : OrthonormalFrame c) (hw : c.world_up = ⟨0, 1, 0⟩)
    (hcp : Real.cos (c.orbitPitch inp) ≠ 0) (hr : c.orbitRadius inp ≠ 0) :
    OrthonormalFrame (c.update_free inp) ∧
    OrthonormalFrame (c.update_with_point inp p) :=
  ⟨Camera.update_free_preserves c inp h hw,
   Camera.update_with_point_preserves c inp p hw hcp hr⟩

/-- Witness for C4 at a concrete orthonormal camera (radius 5, pitch 0) and
idle input. -/
theorem c4_camera_updates_orthonormal_witness :
    (OrthonormalFrame (Camera.mk 0 false 8 ⟨0, 1, 0⟩ 0 0 5 ⟨1, 0, 0⟩ ⟨0, 0, 1⟩ ⟨0, 1, 0⟩
        ⟨0, 0, 0⟩ ⟨0, 0⟩ true) ∧
      (Camera.mk 0 false 8 ⟨0, 1, 0⟩ 0 0 5 ⟨1, 0, 0⟩ ⟨0, 0, 1⟩ ⟨0, 1, 0⟩
        ⟨0, 0, 0⟩ ⟨0, 0⟩ true).world_up = ⟨0, 1, 0⟩ ∧
      Real.cos ((Camera.mk 0 false 8 ⟨0, 1, 0⟩ 0 0 5 ⟨1, 0, 0⟩ ⟨0, 0, 1⟩ ⟨0, 1, 0⟩
        ⟨0, 0, 0⟩ ⟨0, 0⟩ true).orbitPitch inputIdle) ≠ 0 ∧
      (Camera.mk 0 false 8 ⟨0, 1, 0⟩ 0 0 5 ⟨1, 0, 0⟩ ⟨0, 0, 1⟩ ⟨0, 1, 0⟩
        ⟨0, 0, 0⟩ ⟨0, 0⟩ true).orbitRadius inputIdle ≠ 0) ∧
    OrthonormalFrame ((Camera.mk 0 false 8 ⟨0, 1, 0⟩ 0 0 5 ⟨1, 0, 0⟩ ⟨0, 0, 1⟩ ⟨0, 1, 0⟩
      ⟨0, 0, 0⟩ ⟨0, 0⟩ true).update_free inputIdle) ∧
    OrthonormalFrame ((Camera.mk 0 false 8 ⟨0, 1, 0⟩ 0 0 5 ⟨1, 0, 0⟩ ⟨0, 0, 1⟩ ⟨0, 1, 0⟩
      ⟨0, 0, 0⟩ ⟨0, 0⟩ true).update_with_point inputIdle (0 : Vec3)) := by
  have hort : OrthonormalFrame (Camera.mk 0 false 8 ⟨0, 1, 0⟩ 0 0 5 ⟨1, 0, 0⟩ ⟨0, 0, 1⟩
      ⟨0, 1, 0⟩ ⟨0, 0, 0⟩ ⟨0, 0⟩ true) := by
    refine ⟨?_, ?_, ?_, ?_, ?_, ?_, ?_⟩
    · simp [Vec3.length, Vec3.dot, Real.sqrt_one]
    · simp [Vec3.length, Vec3.dot, Real.sqrt_one]
    · simp [Vec3.length, Vec3.dot, Real.sqrt_one]
    · simp [Vec3.dot]
    · simp [Vec3.dot]
    · simp [Vec3.dot]
    · ext <;> simp [Vec3.cross]
  have hcp : Real.cos ((Camera.mk 0 false 8 ⟨0, 1, 0⟩ 0 0 5 ⟨1, 0, 0⟩ ⟨0, 0, 1⟩ ⟨0, 1, 0⟩
      ⟨0, 0, 0⟩ ⟨0, 0⟩ true).orbitPitch inputIdle) ≠ 0 := by
    have : (Camera.mk 0 false 8 ⟨0, 1, 0⟩ 0 0 5 ⟨1, 0, 0⟩ ⟨0, 0, 1⟩ ⟨0, 1, 0⟩
        ⟨0, 0, 0⟩ ⟨0, 0⟩ true).orbitPitch inputIdle = 0 := by
      simp [Camera.orbitPitch, inputIdle]
    rw [this, Real.cos_zero]
    norm_num
  have hr : (Camera.mk 0 false 8 ⟨0, 1, 0⟩ 0 0 5 ⟨1, 0, 0⟩ ⟨0, 0, 1⟩ ⟨0, 1, 0⟩
      ⟨0, 0, 0⟩ ⟨0, 0⟩ true).orbitRadius inputIdle ≠ 0 := by
    have : (Camera.mk 0 false 8 ⟨0, 1, 0⟩ 0 0 5 ⟨1, 0, 0⟩ ⟨0, 0, 1⟩ ⟨0, 1, 0⟩
        ⟨0, 0, 0⟩ ⟨0, 0⟩ true).orbitRadius inputIdle = 5 := by
      simp [Camera.orbitRadius, inputIdle]
    rw [this]
    norm_num
  exact ⟨⟨hort, rfl, hcp, hr⟩,
    c4_camera_updates_orthonormal _ inputIdle (0 : Vec3) hort rfl hcp hr⟩

theorem step1_focus_none (s : MainState) (inp : TickInput)
    (hfoc : s.focused = FocusPoint.None) :
    step1 s inp = some (s.camera.update_free inp.frame, FocusPoint.None, CamAction.free) := by
  unfold step1
  rw [hfoc]

theorem uiFocus_none (inp : TickInput) (hfc : inp.focusClick = none)
    (hmc : inp.mcClick = false) :
    uiFocus inp FocusPoint.None = FocusPoint.None := by
  simp [uiFocus, hfc, hmc]

/-- The next state's `prevInstant` is the click-time `now` when the run
checkbox was clicked this tick, and is otherwise left untouched — the
physics step itself never advances it (src/main.rs lines 334-340, 367-369). -/
theorem tick_prevInstant (t : MainState) (inp3 : TickInput) (s3 : MainState)
    (tr3 : TickTrace) (h : tick t inp3 = some (s3, tr3)) :
    s3.prevInstant = (if inp3.runClick then inp3.now else t.prevInstant) := by
  cases h1 : step1 t inp3 with
  | none =>
    unfold tick at h
    rw [h1] at h
    simp at h
  | some r =>
    obtain ⟨cam', f1, act⟩ := r
    cases hrc : inp3.removeClick with
    | none =>
      have heq := (tick_of_remove_none t inp3 cam' f1 act h1 hrc).symm.trans h
      rw [Option.some.injEq] at heq
      injection heq with hX hT
      rw [← hX]
    | some k =>
      by_cases hk : k < (uiBodies t inp3).length
      · have heq := (tick_of_remove_some t inp3 cam' f1 act k h1 hrc hk).symm.trans h
        rw [Option.some.injEq] at heq
        injection heq with hX hT
        rw [← hX]
      · have hnone : tick t inp3 = none := by
          rw [tick_char t inp3 cam' f1 act h1, hrc]
          exact if_neg hk
        rw [hnone] at h
        exact absurd h (by simp)

/-- The `dt` recorded by a tick is `now - prevInstant` when running and
absent when paused. -/
theorem tick_dtUsed (t : MainState) (inp3 : TickInput) (s3 : MainState)
    (tr3 : TickTrace) (h : tick t inp3 = some (s3, tr3)) :
    tr3.dtUsed = (if t.running then some (inp3.now - t.prevInstant) else none) := by
  cases h1 : step1 t inp3 with
  | none =>
    unfold tick at h
    rw [h1] at h
    simp at h
  | some r =>
    obtain ⟨cam', f1, act⟩ := r
    cases hrc : inp3.removeClick with
    | none =>
      have heq := (tick_of_remove_none t inp3 cam' f1 act h1 hrc).symm.trans h
      rw [Option.some.injEq] at heq
      injection heq with hX hT
      rw [← hT]
    | some k =>
      by_cases hk : k < (uiBodies t inp3).length
      · have heq := (tick_of_remove_some t inp3 cam' f1 act k h1 hrc hk).symm.trans h
        rw [Option.some.injEq] at heq
        injection heq with hX hT
        rw [← hT]
      · have hnone : tick t inp3 = none := by
          rw [tick_char t inp3 cam' f1 act h1, hrc]
          exact if_neg hk
        rw [hnone] at h
        exact absurd h (by simp)

/-- A running tick with free focus, no run click and no focus clicks steps
successfully, records `dt = now - prevInstant`, and keeps `prevInstant`,
`running` and the free focus unchanged. -/
theorem tick_running_none (s : MainState) (inp : TickInput)
    (hrun : s.running = true) (hclick : inp.runClick = false)
    (hfoc : s.focused = FocusPoint.None) (hv : ValidInput s inp)
    (hfc : inp.focusClick = none) (hmc : inp.mcClick = false) :
    ∃ s' tr, tick s inp = some (s', tr) ∧
      tr.dtUsed = some (inp.now - s.prevInstant) ∧
      s'.prevInstant = s.prevInstant ∧ s'.running = true ∧
      s'.focused = FocusPoint.None := by
  have h1 := step1_focus_none s inp hfoc
  cases hrc : inp.removeClick with
  | none =>
    refine ⟨_, _, tick_of_remove_none s inp _ _ _ h1 hrc, ?_, ?_, ?_, ?_⟩
    · show (if s.running then some (inp.now - s.prevInstant) else none) = _
      simp [hrun]
    · show (if inp.runClick then inp.now else s.prevInstant) = s.prevInstant
      simp [hclick]
    · show (if inp.runClick then !s.running else s.running) = true
      simp [hclick, hrun]
    · exact uiFocus_none inp hfc hmc
  | some k =>
    have hk := hv.2 k hrc
    refine ⟨_, _, tick_of_remove_some s inp _ _ _ k h1 hrc hk, ?_, ?_, ?_, ?_⟩
    · show (if s.running then some (inp.now - s.prevInstant) else none) = _
      simp [hrun]
    · show (if inp.runClick then inp.now else s.prevInstant) = s.prevInstant
      simp [hclick]
    · show (if inp.runClick then !s.running else s.running) = true
      simp [hclick, hrun]
    · exact uiFocus_none inp hfc hmc

/-- Claim C6: the simulation loop itself never advances `prev_instant` — it
is reassigned only when the run checkbox is clicked — so on a running tick
the `dt` fed to `accelerate`/`move_bodies` equals the wall-clock time
elapsed since the toggle set `prev_instant`, and on the next running tick
(no click) it is measured from the SAME `prev_instant`, hence it grows with
the wall clock instead of being a per-frame delta. -/
theorem c6_dt_since_toggle (s : MainState) (inp : TickInput)
    (hrun : s.running = true) (hclick : inp.runClick = false)
    (hfoc : s.focused = FocusPoint.None) (hv : ValidInput s inp)
    (hfc : inp.focusClick = none) (hmc : inp.mcClick = false) :
    (∀ (t : MainState) (inp3 : TickInput) (s3 : MainState) (tr3 : TickTrace),
      tick t inp3 = some (s3, tr3) →
      s3.prevInstant = (if inp3.runClick then inp3.now else t.prevInstant)) ∧
    ∃ s' tr, tick s inp = some (s', tr) ∧
      tr.dtUsed = some (inp.now - s.prevInstant) ∧
      s'.prevInstant = s.prevInstant ∧ s'.running = true ∧
      s'.focused = FocusPoint.None ∧
      ∀ inp2 : TickInput, inp2.runClick = false → ValidInput s' inp2 →
        ∃ s2 tr2, tick s' inp2 = some (s2, tr2) ∧
          tr2.dtUsed = some (inp2.now - s.prevInstant) ∧
          (inp.now < inp2.now →
            inp.now - s.prevInstant < inp2.now - s.prevInstant) := by
  obtain ⟨s', tr, ht, hdt, hprev, hrun', hfoc'⟩ :=
    tick_running_none s inp hrun hclick hfoc hv hfc hmc
  refine ⟨tick_prevInstant, s', tr, ht, hdt, hprev, hrun', hfoc', ?_⟩
  intro inp2 hclick2 hv2
  have hinv' : FocusInv s' := by
    intro i hi _
    rw [hfoc'] at hi
    exact absurd hi (by simp)
  obtain ⟨⟨s2, tr2⟩, ht2⟩ := tick_isSome s' inp2 hinv' hv2
  refine ⟨s2, tr2, ht2, ?_, ?_⟩
  · have hdt2 := tick_dtUsed s' inp2 s2 tr2 ht2
    rw [hrun'] at hdt2
    rw [hdt2, hprev]
    simp
  · intro hlt
    exact sub_lt_sub_right hlt _

/-- Claim C3: from program start, under valid inputs, every reachable tick
completes without any out-of-bounds indexing of the body collection (the
`Body(i)` match arm included); and whenever body `k` is removed during a
tick whose end-of-tick focus is `Body k`, the pending selection survives
into the next tick, whose focus match resets the focus to `None` and runs
the free-fly camera update instead of indexing the removed body. -/
theorem c3_focus_removal_safety (s : MainState) (hs : Reachable s) (inp : TickInput)
    (hv : ValidInput s inp) :
    (∃ r, tick s inp = some r) ∧
    (∀ s' tr k, tick s inp = some (s', tr) → inp.removeClick = some k →
      s'.selectedBody = some k ∧
      (∀ inp2, ValidInput s' inp2 →
        (∃ r2, tick s' inp2 = some r2) ∧
        (∀ s2 tr2, tick s' inp2 = some (s2, tr2) → s'.focused = FocusPoint.Body k →
          tr2.focusAfterMatch = FocusPoint.None ∧ tr2.action = CamAction.free ∧
          s2.camera = s'.camera.update_free inp2.frame))) := by
  have hinv : FocusInv s := reachable_focusInv hs
  refine ⟨tick_isSome s inp hinv hv, ?_⟩
  intro s' tr k ht hrc
  obtain ⟨⟨cam', f1, act⟩, h1⟩ := step1_isSome s inp hinv
  have hk : k < (uiBodies s inp).length := hv.2 k hrc
  have heq := (tick_of_remove_some s inp cam' f1 act k h1 hrc hk).symm.trans ht
  rw [Option.some.injEq] at heq
  injection heq with hX hT
  have hsel : s'.selectedBody = some k := by
    rw [← hX]
  refine ⟨hsel, ?_⟩
  intro inp2 hv2
  have hreach' : Reachable s' := Reachable.step hs hv ht
  have hinv' : FocusInv s' := reachable_focusInv hreach'
  refine ⟨tick_isSome s' inp2 hinv' hv2, ?_⟩
  intro s2 tr2 ht2 hfoc2
  have hstep2 : step1 s' inp2
      = some (s'.camera.update_free inp2.frame, FocusPoint.None, CamAction.free) :=
    step1_body_selected s' inp2 k k hfoc2 hsel
  cases hrc2 : inp2.removeClick with
  | none =>
    have heq2 := (tick_of_remove_none s' inp2 _ _ _ hstep2 hrc2).symm.trans ht2
    rw [Option.some.injEq] at heq2
    injection heq2 with hX2 hT2
    refine ⟨?_, ?_, ?_⟩
    · rw [← hT2]
    · rw [← hT2]
    · rw [← hX2]
  | some k2 =>
    have hk2 : k2 < (uiBodies s' inp2).length := hv2.2 k2 hrc2
    have heq2 := (tick_of_remove_some s' inp2 _ _ _ k2 hstep2 hrc2 hk2).symm.trans ht2
    rw [Option.some.injEq] at heq2
    injection heq2 with hX2 hT2
    refine ⟨?_, ?_, ?_⟩
    · rw [← hT2]
    · rw [← hT2]
    · rw [← hX2]

/-- A concrete idle tick input (no clicks, `now = 0`). -/
def tickIdle : TickInput := ⟨inputIdle, 0, false, false, false, false, none, none⟩

/-- Witness for C3 at the initial state with an idle input. -/
theorem c3_focus_removal_safety_witness :
    (Reachable (initState 0 ⟨0, 0⟩) ∧ ValidInput (initState 0 ⟨0, 0⟩) tickIdle) ∧
    (∃ r, tick (initState 0 ⟨0, 0⟩) tickIdle = some r) ∧
    (∀ s' tr k, tick (initState 0 ⟨0, 0⟩) tickIdle = some (s', tr) →
      tickIdle.removeClick = some k →
      s'.selectedBody = some k ∧
      (∀ inp2, ValidInput s' inp2 →
        (∃ r2, tick s' inp2 = some r2) ∧
        (∀ s2 tr2, tick s' inp2 = some (s2, tr2) → s'.focused = FocusPoint.Body k →
          tr2.focusAfterMatch = FocusPoint.None ∧ tr2.action = CamAction.free ∧
          s2.camera = s'.camera.update_free inp2.frame))) :=
  ⟨⟨Reachable.init 0 ⟨0, 0⟩, by constructor <;> intro i hi <;> simp [tickIdle] at hi⟩,
    c3_focus_removal_safety (initState 0 ⟨0, 0⟩) (Reachable.init 0 ⟨0, 0⟩) tickIdle
      (by constructor <;> intro i hi <;> simp [tickIdle] at hi)⟩

/-- A concrete running main-loop state with free focus. -/
def mainStateRunning : MainState := ⟨[], true, 0, none, FocusPoint.None, Camera.new ⟨0, 0⟩⟩

/-- A concrete idle tick input at wall-clock time 1. -/
def tickIdleAt1 : TickInput := ⟨inputIdle, 1, false, false, false, false, none, none⟩

/-- Witness for C6 at a concrete running state and idle input. -/
theorem c6_dt_since_toggle_witness :
    (mainStateRunning.running = true ∧ tickIdleAt1.runClick = false ∧
      mainStateRunning.focused = FocusPoint.None ∧
      ValidInput mainStateRunning tickIdleAt1 ∧
      tickIdleAt1.focusClick = none ∧ tickIdleAt1.mcClick = false) ∧
    (∀ (t : MainState) (inp3 : TickInput) (s3 : MainState) (tr3 : TickTrace),
      tick t inp3 = some (s3, tr3) →
      s3.prevInstant = (if inp3.runClick then inp3.now else t.prevInstant)) ∧
    ∃ s' tr, tick mainStateRunning tickIdleAt1 = some (s', tr) ∧
      tr.dtUsed = some (tickIdleAt1.now - mainStateRunning.prevInstant) ∧
      s'.prevInstant = mainStateRunning.prevInstant ∧ s'.running = true ∧
      s'.focused = FocusPoint.None ∧
      ∀ inp2 : TickInput, inp2.runClick = false → ValidInput s' inp2 →
        ∃ s2 tr2, tick s' inp2 = some (s2, tr2) ∧
          tr2.dtUsed = some (inp2.now - mainStateRunning.prevInstant) ∧
          (tickIdleAt1.now < inp2.now →
            tickIdleAt1.now - mainStateRunning.prevInstant
              < inp2.now - mainStateRunning.prevInstant) :=
  ⟨⟨rfl, rfl, rfl, by constructor <;> intro i hi <;> simp [tickIdleAt1] at hi, rfl, rfl⟩,
    c6_dt_since_toggle mainStateRunning tickIdleAt1 rfl rfl rfl
      (by constructor <;> intro i hi <;> simp [tickIdleAt1] at hi) rfl rfl⟩
